import Mathlib

/-!
Verification of the index-addressed tree model
(`src/vs/base/browser/ui/tree/indexTreeModel.ts`).

The TypeScript class `IndexTreeModel` is embedded as a pure state-passing
model.  A mutable `IMutableTreeNode` becomes the inductive `TreeNode`; the
`parent` back-pointer is not stored (a node's identity in a pure tree is its
path from the root, and the fresh `id` field stands in for JS reference
identity where the source compares references).  The externally owned render
projection (`ISpliceable<ITreeNode>`) is kept as the list of row elements the
model writes through `list.splice`.  The `ITreeFilter` is kept as a function
returning a `TreeVisibility` verdict; the opaque `filterData` attached by
data-carrying filter results is orthogonal to every property below and is
omitted.  Event emitters are dropped (no claim below concerns event payloads;
the boolean results and state updates are kept exactly).  Machine numbers are
embedded as `Int` wherever the source can produce negative or out-of-range
values, and JS `Array.prototype.splice` clamping is reproduced verbatim.
-/

/-- Mirrors the `TreeVisibility` enum of `tree.ts`. -/
inductive TreeVisibility where
  | Hidden
  | Visible
  | Recurse
deriving DecidableEq, Repr

/-- Mirrors `ITreeElement<T>`: payload, child elements, and the two optional
creation flags (`collapsible?`, `collapsed?`). -/
inductive TreeElement (α : Type) where
  | mk (element : α) (children : List (TreeElement α))
       (collapsible : Option Bool) (collapsed : Option Bool)
deriving Repr

def TreeElement.element {α : Type} : TreeElement α → α
  | .mk e _ _ _ => e

def TreeElement.children {α : Type} : TreeElement α → List (TreeElement α)
  | .mk _ cs _ _ => cs

def TreeElement.collapsibleOpt {α : Type} : TreeElement α → Option Bool
  | .mk _ _ cb _ => cb

def TreeElement.collapsedOpt {α : Type} : TreeElement α → Option Bool
  | .mk _ _ _ c => c

/-- The non-recursive fields of `IMutableTreeNode<T, TFilterData>`.  The
`parent` pointer and `filterData` are omitted (see the module comment);
`id` models JS object identity of freshly allocated nodes. -/
structure NodeData (α : Type) where
  id : Nat
  element : α
  depth : Nat
  visibleChildrenCount : Int
  visibleChildIndex : Int
  collapsible : Bool
  collapsed : Bool
  renderNodeCount : Int
  visible : Bool
deriving Repr, DecidableEq

/-- Mirrors `IMutableTreeNode<T, TFilterData>`: the data fields plus the owned
ordered children. -/
inductive TreeNode (α : Type) where
  | mk (data : NodeData α) (children : List (TreeNode α))
deriving Repr

def TreeNode.data {α : Type} : TreeNode α → NodeData α
  | .mk d _ => d

def TreeNode.children {α : Type} : TreeNode α → List (TreeNode α)
  | .mk _ cs => cs

def TreeNode.withData {α : Type} (n : TreeNode α) (d : NodeData α) : TreeNode α :=
  .mk d n.children

def TreeNode.withChildren {α : Type} (n : TreeNode α) (cs : List (TreeNode α)) : TreeNode α :=
  .mk n.data cs

/-- Adds a delta to a node's cached `renderNodeCount`
(one step of `_updateAncestorsRenderNodeCount`). -/
def TreeNode.addRnc {α : Type} (n : TreeNode α) (d : Int) : TreeNode α :=
  n.withData { n.data with renderNodeCount := n.data.renderNodeCount + d }

/-- The filter contract of `ITreeFilter.filter` composed with
`getVisibleState`/`isFilterResult`: from an element and the parent visibility
context to a `TreeVisibility` verdict.  The parent context is an `Option`
because `_updateNodeAfterFilterChange` passes the JS `undefined` for the
root's own (never assigned) `visibility` to the root's children. -/
def TreeFilterFn (α : Type) := α → Option TreeVisibility → TreeVisibility

/-- Model state: the synthetic root node, the render projection (row
elements, written only through `list.splice`), the construction options and
the fresh-id counter. -/
structure Model (α : Type) where
  root : TreeNode α
  list : List α
  collapseByDefault : Bool
  filter : TreeFilterFn α
  autoExpandSingleChildren : Bool
  nextId : Nat

/-- The `IndexTreeModel` constructor: root node with
`visibleChildIndex = -1`, `collapsible = false`, `visible = true`. -/
def mkModel {α : Type} (rootElement : α) (collapseByDefault : Bool)
    (filter : TreeFilterFn α) (autoExpandSingleChildren : Bool) : Model α :=
  { root := .mk
      { id := 0, element := rootElement, depth := 0, visibleChildrenCount := 0,
        visibleChildIndex := -1, collapsible := false, collapsed := false,
        renderNodeCount := 0, visible := true } [],
    list := [], collapseByDefault := collapseByDefault, filter := filter,
    autoExpandSingleChildren := autoExpandSingleChildren, nextId := 1 }

def invalidLocationMsg : String := "Invalid tree location"

/-- Stands for the JS TypeError raised when the walk dereferences the
`undefined` obtained from an index equal to the child count. -/
def typeErrorMsg : String := "TypeError"

/-- JS `Array.prototype.splice` semantics including start/deleteCount
clamping; returns the new array and the removed run. -/
def jsSplice {β : Type} (l : List β) (start : Int) (deleteCount : Int)
    (items : List β) : List β × List β :=
  let len : Int := l.length
  let s : Int := if start < 0 then max (len + start) 0 else min start len
  let dc : Int := min (max deleteCount 0) (len - s)
  (l.take s.toNat ++ items ++ l.drop (s.toNat + dc.toNat), (l.drop s.toNat).take dc.toNat)

/-- Sum of the cached `renderNodeCount` over a run of siblings. -/
def rncSum {α : Type} (cs : List (TreeNode α)) : Int :=
  (cs.map (fun c => c.data.renderNodeCount)).sum

/-- Number of visible nodes in a run of siblings. -/
def countVisible {α : Type} (cs : List (TreeNode α)) : Int :=
  ((cs.filter (fun c => c.data.visible)).length : Int)

/-- The assignment loop `if (child.visible) child.visibleChildIndex =
counter++` over a run of freshly created siblings (used by both
`createTreeNode` and `splice`); returns the updated run and the final
counter. -/
def assignVci {α : Type} : List (TreeNode α) → Int → List (TreeNode α) × Int
  | [], k => ([], k)
  | c :: cs, k =>
    if c.data.visible then
      let r := assignVci cs (k + 1)
      (c.withData { c.data with visibleChildIndex := k } :: r.1, r.2)
    else
      let r := assignVci cs k
      (c :: r.1, r.2)

mutual

/-- Mirrors `IndexTreeModel.createTreeNode`.  Returns the built node, the
run of revealed rows it contributed to `treeListElements` (as row elements;
the source pushes the node object before materializing children and pops it
again if the node resolved invisible), and the next fresh id. -/
def createTreeNode {α : Type} (f : TreeFilterFn α) (collapseByDefault : Bool)
    (el : TreeElement α) (parentDepth : Nat)
    (parentVisibility : Option TreeVisibility) (revealed : Bool)
    (nid : Nat) : TreeNode α × List α × Nat :=
  match el with
  | .mk element elChildren elCollapsible elCollapsed =>
    let collapsible0 : Bool :=
      match elCollapsible with
      | some b => b
      | none => elCollapsed.isSome
    let collapsed0 : Bool :=
      match elCollapsed with
      | some b => b
      | none => collapseByDefault
    let visibility : TreeVisibility := f element parentVisibility
    let childRevealed : Bool :=
      revealed && (match visibility with | .Hidden => false | _ => true) && !collapsed0
    match createTreeNodeList f collapseByDefault elChildren (parentDepth + 1)
        (some visibility) childRevealed (nid + 1) with
    | (childNodes, childFrag, nid2) =>
      match assignVci childNodes 0 with
      | (childNodes2, visibleChildrenCount) =>
        let collapsible1 : Bool := collapsible0 || !childNodes2.isEmpty
        let vis : Bool :=
          match visibility with
          | .Recurse => 0 < visibleChildrenCount
          | .Visible => true
          | .Hidden => false
        let rnc : Int := if !vis then 0 else if !collapsed0 then 1 + rncSum childNodes2 else 1
        let node : TreeNode α := .mk
          { id := nid, element := element, depth := parentDepth + 1,
            visibleChildrenCount := visibleChildrenCount, visibleChildIndex := -1,
            collapsible := collapsible1, collapsed := collapsed0,
            renderNodeCount := rnc, visible := vis } childNodes2
        let frag0 : List α := (if revealed then [element] else []) ++ childFrag
        let frag : List α := if !vis && revealed then frag0.dropLast else frag0
        (node, frag, nid2)

/-- Creation of a run of sibling elements in order, threading the fresh-id
counter and concatenating the revealed row fragments. -/
def createTreeNodeList {α : Type} (f : TreeFilterFn α) (collapseByDefault : Bool)
    (els : List (TreeElement α)) (parentDepth : Nat)
    (parentVisibility : Option TreeVisibility) (revealed : Bool)
    (nid : Nat) : List (TreeNode α) × List α × Nat :=
  match els with
  | [] => ([], [], nid)
  | el :: rest =>
    match createTreeNode f collapseByDefault el parentDepth parentVisibility revealed nid with
    | (n, frag1, nid1) =>
      match createTreeNodeList f collapseByDefault rest parentDepth parentVisibility revealed nid1 with
      | (ns, frag2, nid2) => (n :: ns, frag1 ++ frag2, nid2)

end

mutual

/-- Mirrors `treeNodeToElement`: snapshot of a node as a tree element (the
returned object carries the concrete `collapsed` boolean and no
`collapsible` property). -/
def treeNodeToElement {α : Type} : TreeNode α → TreeElement α
  | .mk d cs => .mk d.element (treeNodeToElementList cs) none (some d.collapsed)

def treeNodeToElementList {α : Type} : List (TreeNode α) → List (TreeElement α)
  | [] => []
  | c :: cs => treeNodeToElement c :: treeNodeToElementList cs

end

/-- Mirrors `IndexTreeModel.getParentNodeWithListIndex`: walks the location,
bounds-checking every component (`index < 0 || index > children.length`
throws), accumulating the flat-list offset from the render counts of
preceding siblings, and conjoining the revealed/visible context flags;
returns the parent of the addressed slot together with the offset and flags.
Descending through an index equal to the child count dereferences the JS
`undefined`, which crashes in the recursive call. -/
def getParentNodeWithListIndex {α : Type} :
    List Int → TreeNode α → Int → Bool → Bool →
    Except String (TreeNode α × Int × Bool × Bool)
  | [], node, listIndex, revealed, visible =>
    .ok (node, listIndex, revealed && !node.data.collapsed, visible && node.data.visible)
  | index :: rest, node, listIndex, revealed, visible =>
    if index < 0 ∨ (node.children.length : Int) < index then
      .error invalidLocationMsg
    else
      let listIndex2 := listIndex + rncSum (node.children.take index.toNat)
      let revealed2 := revealed && !node.data.collapsed
      let visible2 := visible && node.data.visible
      if rest.isEmpty then
        .ok (node, listIndex2, revealed2, visible2)
      else
        match node.children[index.toNat]? with
        | some child => getParentNodeWithListIndex rest child (listIndex2 + 1) revealed2 visible2
        | none => .error typeErrorMsg

/-- Mirrors `IndexTreeModel.getTreeNodeWithListIndex`.  For the empty
location it answers the root with `listIndex = -1`, revealed, not visible;
otherwise it resolves the parent and picks the addressed child (reading
`node.visible` on the JS `undefined` crashes when the final index equals the
child count). -/
def getTreeNodeWithListIndex {α : Type} (root : TreeNode α) (loc : List Int) :
    Except String (TreeNode α × Int × Bool × Bool) :=
  if loc.isEmpty then .ok (root, -1, true, false)
  else do
    let r ← getParentNodeWithListIndex loc root 0 true true
    match r with
    | (parentNode, listIndex, revealed, visible) =>
      let index := loc.getLastD 0
      if index < 0 ∨ (parentNode.children.length : Int) < index then
        .error invalidLocationMsg
      else
        match parentNode.children[index.toNat]? with
        | some node => .ok (node, listIndex, revealed, visible && node.data.visible)
        | none => .error typeErrorMsg

/-- Mirrors the cheap `IndexTreeModel.getTreeNode`.  The node argument is an
`Option` because the JS walk can be handed the `undefined` child obtained
from an index equal to the child count: the empty location returns it
untouched, while walking further dereferences it (TypeError). -/
def getTreeNode {α : Type} :
    List Int → Option (TreeNode α) → Except String (Option (TreeNode α))
  | [], node => .ok node
  | index :: rest, node =>
    match node with
    | none => .error typeErrorMsg
    | some n =>
      if index < 0 ∨ (n.children.length : Int) < index then
        .error invalidLocationMsg
      else
        getTreeNode rest (n.children[index.toNat]?)

/-- Pure stand-in for the in-place mutation through the resolved parent
reference plus `_updateAncestorsRenderNodeCount`: rebuilds the tree along a
path, applying `f` to the node at the path end and adding the render-count
delta returned by `f` to every proper ancestor on the way back up. -/
def updateTreeAt {α : Type} :
    TreeNode α → List Int → (TreeNode α → TreeNode α × Int) → TreeNode α × Int
  | node, [], f => f node
  | node, i :: rest, f =>
    match node.children[i.toNat]? with
    | none => (node, 0)
    | some child =>
      let r := updateTreeAt child rest f
      ((node.withChildren (node.children.set i.toNat r.1)).addRnc r.2, r.2)

/-- The downward scan of `splice` looking for the visible child at or before
the splice point (`for (let i = lastIndex; i >= 0 && i < len; i--)`),
answering its cached `visibleChildIndex`. -/
def visibleScanDown {α : Type} (cs : List (TreeNode α)) : Nat → Int
  | 0 =>
    match cs[0]? with
    | some c => if c.data.visible then c.data.visibleChildIndex else 0
    | none => 0
  | i + 1 =>
    match cs[i + 1]? with
    | some c => if c.data.visible then c.data.visibleChildIndex else visibleScanDown cs i
    | none => 0

/-- Entry point of the scan: the loop body never runs when the start index is
already out of range (in particular when splicing at the append position). -/
def visibleStartScan {α : Type} (cs : List (TreeNode α)) (lastIndex : Int) : Int :=
  if 0 ≤ lastIndex ∧ lastIndex < (cs.length : Int) then visibleScanDown cs lastIndex.toNat
  else 0

/-- The adjustment loop over existing siblings after the splice point
(`child.visibleChildIndex -= deletedVisibleChildrenCount`). -/
def adjustVciFrom {α : Type} (cs : List (TreeNode α)) (start : Int) (delta : Int) :
    List (TreeNode α) :=
  cs.mapIdx (fun i c =>
    if start ≤ (i : Int) ∧ c.data.visible then
      c.withData { c.data with visibleChildIndex := c.data.visibleChildIndex - delta }
    else c)

/-- Mirrors `IndexTreeModel.splice`.  Location resolution happens in full
before any state is produced; on success returns the updated model and the
deleted elements (`treeNodeToElement` snapshots). -/
def Model.splice {α : Type} (m : Model α) (location : List Int) (deleteCount : Int)
    (toInsert : List (TreeElement α)) :
    Except String (Model α × List (TreeElement α)) :=
  if location.isEmpty then .error invalidLocationMsg
  else do
    let r ← getParentNodeWithListIndex location m.root 0 true true
    match r with
    | (parentNode, listIndex, revealed, visible) =>
      match createTreeNodeList m.filter m.collapseByDefault toInsert parentNode.data.depth
          (some (if parentNode.data.visible then TreeVisibility.Visible else TreeVisibility.Hidden))
          revealed m.nextId with
      | (nodesToInsert0, treeListElementsToInsert, nextId2) =>
        let lastIndex : Int := location.getLastD 0
        let visibleChildStartIndex := visibleStartScan parentNode.children lastIndex
        match assignVci nodesToInsert0 visibleChildStartIndex with
        | (nodesToInsert, visibleEnd) =>
          let insertedVisibleChildrenCount := visibleEnd - visibleChildStartIndex
          let renderNodeCount := rncSum nodesToInsert
          match jsSplice parentNode.children lastIndex deleteCount nodesToInsert with
          | (newChildren, deletedNodes) =>
            let deletedVisibleChildrenCount := countVisible deletedNodes
            let newChildren2 :=
              if deletedVisibleChildrenCount ≠ 0 then
                adjustVciFrom newChildren (lastIndex + nodesToInsert.length)
                  deletedVisibleChildrenCount
              else newChildren
            let parent2 := parentNode.withChildren newChildren2
            let parent3 := parent2.withData
              { parent2.data with visibleChildrenCount :=
                  parent2.data.visibleChildrenCount + insertedVisibleChildrenCount
                    - deletedVisibleChildrenCount }
            let visibleDeleteCount := rncSum deletedNodes
            let rv := revealed && visible
            let diff : Int := if rv then renderNodeCount - visibleDeleteCount else 0
            let root2 := (updateTreeAt m.root location.dropLast
              (fun _ => (if rv then parent3.addRnc diff else parent3, diff))).1
            let list2 :=
              if rv then (jsSplice m.list listIndex visibleDeleteCount treeListElementsToInsert).1
              else m.list
            .ok ({ m with root := root2, list := list2, nextId := nextId2 },
                 deletedNodes.map treeNodeToElement)

mutual

/-- Mirrors `IndexTreeModel._setNodeCollapsed` (events dropped): writes the
target state when the node is collapsible, recurses over the subtree when
`recursive`, and reports whether any collapsible node actually changed. -/
def setNodeCollapsed {α : Type} (node : TreeNode α) (collapsed : Bool)
    (recursive : Bool) : TreeNode α × Bool :=
  match node with
  | .mk d cs =>
    let result0 : Bool := d.collapsible && d.collapsed != collapsed
    let d2 := if d.collapsible then { d with collapsed := collapsed } else d
    if recursive then
      let r := setNodeCollapsedList cs collapsed
      (.mk d2 r.1, r.2 || result0)
    else
      (.mk d2 cs, result0)

def setNodeCollapsedList {α : Type} :
    List (TreeNode α) → Bool → List (TreeNode α) × Bool
  | [], _ => ([], false)
  | c :: cs, collapsed =>
    let r1 := setNodeCollapsed c collapsed true
    let r2 := setNodeCollapsedList cs collapsed
    (r1.1 :: r2.1, r1.2 || r2.2)

end

mutual

/-- Mirrors `IndexTreeModel._updateNodeAfterCollapseChange`: recomputes the
render counts of the revealed subtree and collects the replacement rows;
answers the node's contribution to its parent (its new `renderNodeCount`,
or 0 when the node is invisible and left untouched). -/
def updateNodeAfterCollapseChangeRec {α : Type} : TreeNode α → TreeNode α × List α × Int
  | .mk d cs =>
    if !d.visible then (.mk d cs, [], 0)
    else if !d.collapsed then
      match updateListAfterCollapseChange cs with
      | (cs2, frag, contrib) =>
        let rnc2 : Int := 1 + contrib
        (.mk { d with renderNodeCount := rnc2 } cs2, d.element :: frag, rnc2)
    else
      (.mk { d with renderNodeCount := 1 } cs, [d.element], 1)

def updateListAfterCollapseChange {α : Type} :
    List (TreeNode α) → List (TreeNode α) × List α × Int
  | [] => ([], [], 0)
  | c :: cs =>
    match updateNodeAfterCollapseChangeRec c with
    | (c2, f1, k1) =>
      match updateListAfterCollapseChange cs with
      | (cs2, f2, k2) => (c2 :: cs2, f1 ++ f2, k1 + k2)

end

/-- Mirrors `IndexTreeModel._setListNodeCollapsed` at the model level: writes
the collapse-state mutation back at `loc`, and when the node is revealed and
visible recomputes its rendered span, splices the replacement rows into the
projection and propagates the render-count delta to the proper ancestors. -/
def setListNodeCollapsedModel {α : Type} (m : Model α) (loc : List Int)
    (node : TreeNode α) (listIndex : Int) (revealed : Bool)
    (collapsed recursive : Bool) : Model α × Bool :=
  let r := setNodeCollapsed node collapsed recursive
  let node1 := r.1
  let result := r.2
  if !revealed || !node1.data.visible then
    ({ m with root := (updateTreeAt m.root loc (fun _ => (node1, 0))).1 }, result)
  else
    let previousRenderNodeCount := node1.data.renderNodeCount
    match updateNodeAfterCollapseChangeRec node1 with
    | (node2, toInsert, _) =>
      let diff : Int := (toInsert.length : Int) - previousRenderNodeCount
      let deleteCount : Int := previousRenderNodeCount - (if listIndex == -1 then 0 else 1)
      let list2 := (jsSplice m.list (listIndex + 1) deleteCount (toInsert.drop 1)).1
      ({ m with
          root := (updateTreeAt m.root loc (fun _ => (node2, diff))).1,
          list := list2 }, result)

/-- The scan of `_setCollapsed` looking for a unique visible child (breaks to
-1 as soon as a second visible child shows up). -/
def onlyVisibleScan {α : Type} : List (TreeNode α) → Nat → Option Nat → Option Nat
  | [], _, acc => acc
  | c :: cs, i, acc =>
    if c.data.visible then
      match acc with
      | some _ => none
      | none => onlyVisibleScan cs (i + 1) (some i)
    else
      onlyVisibleScan cs (i + 1) acc

mutual

/-- Number of nodes of a subtree (used as recursion fuel for the
auto-expand-single-children walk, whose chain of locations strictly
descends through children). -/
def treeSize {α : Type} : TreeNode α → Nat
  | .mk _ cs => 1 + treeSizeList cs

def treeSizeList {α : Type} : List (TreeNode α) → Nat
  | [] => 0
  | c :: cs => treeSize c + treeSizeList cs

end

/-- One step of `IndexTreeModel._setCollapsed`: resolves the node with its
list index, applies `_setListNodeCollapsed`, and reports the index of the
unique visible child to auto-expand next (when the option is on and this was
a plain expand). -/
def setCollapsedStep {α : Type} (m : Model α) (loc : List Int)
    (collapsed recursive : Bool) :
    Except String ((Model α × Bool) × Option Nat) := do
  let r ← getTreeNodeWithListIndex m.root loc
  match r with
  | (node, listIndex, revealed, _) =>
    let s := setListNodeCollapsedModel m loc node listIndex revealed collapsed recursive
    if m.autoExpandSingleChildren && !collapsed && !recursive then
      pure (s, onlyVisibleScan node.children 0 none)
    else
      pure (s, none)

/-- Mirrors `IndexTreeModel._setCollapsed` including the
auto-expand-single-children walk.  The fuel bounds that walk (each step
descends to a child, so any fuel of at least the tree size is enough; the
source needs no fuel because the walk is bounded by the tree depth). -/
def setCollapsedGo {α : Type} (m : Model α) (loc : List Int)
    (collapsed recursive : Bool) : Nat → Except String (Model α × Bool)
  | 0 => do
    let r ← setCollapsedStep m loc collapsed recursive
    pure r.1
  | fuel + 1 => do
    let r ← setCollapsedStep m loc collapsed recursive
    match r.2 with
    | none => pure r.1
    | some i => do
      let r2 ← setCollapsedGo r.1.1 (loc ++ [(i : Int)]) false false fuel
      pure (r2.1, r.1.2)

/-- Mirrors the public `IndexTreeModel.setCollapsed` (the event bufferer is
dropped): an omitted target state toggles the addressed node, an omitted
recursive flag means false. -/
def Model.setCollapsed {α : Type} (m : Model α) (loc : List Int)
    (collapsedOpt : Option Bool) (recursiveOpt : Option Bool) :
    Except String (Model α × Bool) := do
  let n ← getTreeNode loc (some m.root)
  let collapsed ←
    match collapsedOpt with
    | some c => pure c
    | none =>
      match n with
      | some node => pure (!node.data.collapsed)
      | none => Except.error typeErrorMsg
  setCollapsedGo m loc collapsed (recursiveOpt.getD false) (treeSize m.root)

mutual

/-- Mirrors `IndexTreeModel._updateNodeAfterFilterChange` for one node:
re-evaluates the filter (non-root only), walks the children re-assigning
`visibleChildIndex`, resolves `Recurse` visibility from the presence of a
visible child, and recomputes the render count of the revealed span.  A node
whose verdict is `Hidden` is marked invisible and returned at once, leaving
its cached `renderNodeCount` untouched (exactly as the source does). -/
def updateNodeAfterFilterChangeRec {α : Type} (f : TreeFilterFn α) (isRoot : Bool)
    (node : TreeNode α) (parentVisibility : Option TreeVisibility)
    (revealed : Bool) : TreeNode α × List α :=
  match node with
  | .mk d cs =>
    let visibility : Option TreeVisibility :=
      if isRoot then none else some (f d.element parentVisibility)
    if visibility = some TreeVisibility.Hidden then
      (.mk { d with visible := false } cs, [])
    else
      let rnc0 : Int := if isRoot then 0 else 1
      let visNotHidden : Bool :=
        match visibility with
        | some TreeVisibility.Hidden => false
        | _ => true
      if !d.collapsed || visNotHidden then
        match updateListAfterFilterChange f cs visibility (revealed && !d.collapsed) 0 with
        | (cs2, childFrag, hasVisibleDescendants, visibleChildIndexCount) =>
          let visible2 : Bool :=
            if isRoot then d.visible
            else
              match visibility with
              | some TreeVisibility.Recurse => hasVisibleDescendants
              | some TreeVisibility.Visible => true
              | _ => false
          let rncFinal : Int :=
            if !visible2 then 0
            else if !d.collapsed then rnc0 + (childFrag.length : Int)
            else rnc0
          let frag0 : List α := (if revealed && !isRoot then [d.element] else []) ++ childFrag
          let frag : List α := if !visible2 && revealed then frag0.dropLast else frag0
          (.mk { d with
                  visible := visible2,
                  visibleChildrenCount := visibleChildIndexCount,
                  renderNodeCount := rncFinal } cs2, frag)
      else
        let visible2 : Bool :=
          if isRoot then d.visible
          else
            match visibility with
            | some TreeVisibility.Recurse => false
            | some TreeVisibility.Visible => true
            | _ => false
        let rncFinal : Int :=
          if !visible2 then 0 else rnc0
        let frag0 : List α := if revealed && !isRoot then [d.element] else []
        let frag : List α := if !visible2 && revealed then frag0.dropLast else frag0
        (.mk { d with
                visible := visible2,
                visibleChildrenCount := 0,
                renderNodeCount := rncFinal } cs, frag)

/-- The children walk of `_updateNodeAfterFilterChange`: children are
processed in order, each child receives the parent's raw verdict as its
context, `visibleChildIndex` is re-assigned densely over the children that
came out visible, and the pushed rows and the visible-descendant flag are
accumulated. -/
def updateListAfterFilterChange {α : Type} (f : TreeFilterFn α) :
    List (TreeNode α) → Option TreeVisibility → Bool → Int →
    List (TreeNode α) × List α × Bool × Int
  | [], _, _, k => ([], [], false, k)
  | c :: cs, pv, revealed, k =>
    match updateNodeAfterFilterChangeRec f false c pv revealed with
    | (c2, frag1) =>
      let c3 := if c2.data.visible then
          c2.withData { c2.data with visibleChildIndex := k } else c2
      let k2 := if c2.data.visible then k + 1 else k
      match updateListAfterFilterChange f cs pv revealed k2 with
      | (cs2, frag2, hvd2, kf) => (c3 :: cs2, frag1 ++ frag2, c2.data.visible || hvd2, kf)

end

/-- Mirrors `IndexTreeModel.refilter`: one full filter pass from the root and
one projection splice replacing the whole previous rendered content
(`_updateAncestorsRenderNodeCount` on the root's absent parent is a no-op). -/
def Model.refilter {α : Type} (m : Model α) : Model α :=
  let previousRenderNodeCount := m.root.data.renderNodeCount
  let r := updateNodeAfterFilterChangeRec m.filter true m.root
    (some (if m.root.data.visible then TreeVisibility.Visible else TreeVisibility.Hidden)) true
  { m with root := r.1, list := (jsSplice m.list 0 previousRenderNodeCount r.2).1 }

/-- The upward walk of `expandTo`: the iteration with fuel `k + 1` handles
the ancestor at prefix length `k` (`node = node.parent; location =
location.slice(0, ...)`), expanding it through `_setCollapsed(location,
false)` when it is collapsed. -/
def expandToGo {α : Type} (m : Model α) (loc : List Int) :
    Nat → Except String (Model α)
  | 0 => pure m
  | k + 1 => do
    let n ← getTreeNode (loc.take k) (some m.root)
    match n with
    | none => pure m
    | some node =>
      if node.data.collapsed then do
        let r ← setCollapsedGo m (loc.take k) false false (treeSize m.root)
        expandToGo r.1 loc k
      else
        expandToGo m loc k

/-- Mirrors `IndexTreeModel.expandTo`: resolves the node (walking the parent
chain of a JS `undefined` crashes) and expands every collapsed proper
ancestor, from the immediate parent up to the root. -/
def Model.expandTo {α : Type} (m : Model α) (loc : List Int) :
    Except String (Model α) := do
  let n ← getTreeNode loc (some m.root)
  match n with
  | none => Except.error typeErrorMsg
  | some _ => expandToGo m loc loc.length

/-- Mirrors `IndexTreeModel.getNode` (`getTreeNode` from the root). -/
def Model.getNode {α : Type} (m : Model α) (loc : List Int) :
    Except String (Option (TreeNode α)) :=
  getTreeNode loc (some m.root)

/-- Identity-based `indexOf` over a run of siblings (the pure counterpart of
`parent.children.indexOf(node)`, which compares JS references; fresh node
ids model reference identity). -/
def indexOfById {α : Type} (cs : List (TreeNode α)) (i : Nat) : Int :=
  match cs.findIdx? (fun c => c.data.id == i) with
  | some k => (k : Nat)
  | none => -1

/-- Mirrors `IndexTreeModel.getNodeLocation` composed with `getNode`: in the
pure embedding a node reference is the path where the node lives, and the
parent-pointer walk recording `parent.children.indexOf(node)` at each level
(innermost first, then reversed) is rendered top-down along that path. -/
def getNodeLocationGo {α : Type} : TreeNode α → List Int → List Int
  | _, [] => []
  | n, i :: rest =>
    match n.children[i.toNat]? with
    | none => []
    | some c => indexOfById n.children c.data.id :: getNodeLocationGo c rest

/-- Plain node lookup by location used to state properties (total, `Option`
valued, rejecting negative components; agrees with the `getTreeNode` walk on
locations that address an existing node). -/
def nodeAt {α : Type} : TreeNode α → List Int → Option (TreeNode α)
  | n, [] => some n
  | n, i :: rest =>
    if i < 0 then none
    else
      match n.children[i.toNat]? with
      | none => none
      | some c => nodeAt c rest

/-- The collapse flag of the node addressed by a location (for frame
statements about which collapse states an operation may touch). -/
def collapsedAtNode {α : Type} (n : TreeNode α) (loc : List Int) : Option Bool :=
  (nodeAt n loc).map (fun c => c.data.collapsed)

mutual

/-- Specification-side depth-first traversal of the revealed rows: a visible
node contributes its row followed, when it is expanded, by its children's
rows; hidden nodes and the subtrees of collapsed nodes contribute nothing.
The synthetic root contributes only its children. -/
def revealedRows {α : Type} : TreeNode α → List α
  | .mk d cs =>
    if d.visible then
      d.element :: (if !d.collapsed then revealedRowsList cs else [])
    else []

def revealedRowsList {α : Type} : List (TreeNode α) → List α
  | [] => []
  | c :: cs => revealedRows c ++ revealedRowsList cs

end

/-- The traversal of the claims: all revealed rows below the synthetic
root. -/
def projectionSpec {α : Type} (root : TreeNode α) : List α :=
  revealedRowsList root.children

mutual

/-- Decides the render-count law claimed for every node of a subtree: a
visible collapsed (or childless) node caches 1, a visible expanded node
caches 1 plus the sum over its children, a hidden node caches 0. -/
def rncLawB {α : Type} : TreeNode α → Bool
  | .mk d cs =>
    (if d.visible then
      (if d.collapsed then d.renderNodeCount == 1
       else d.renderNodeCount == 1 + rncSum cs)
     else d.renderNodeCount == 0) && rncLawListB cs

def rncLawListB {α : Type} : List (TreeNode α) → Bool
  | [] => true
  | c :: cs => rncLawB c && rncLawListB cs

end

/-- The render-count law over all real nodes (the synthetic root, which
caches the plain sum of its children, is excluded as in the claims). -/
def rncClaimHolds {α : Type} (root : TreeNode α) : Bool :=
  rncLawListB root.children

/-- Decides the dense-numbering law for one run of siblings: the visible
children, in order, carry `visibleChildIndex` values 0, 1, ..., k-1. -/
def vciDense {α : Type} (cs : List (TreeNode α)) : Bool :=
  ((cs.filter (fun c => c.data.visible)).map (fun c => c.data.visibleChildIndex))
    == (List.range (cs.filter (fun c => c.data.visible)).length).map (fun i => (i : Int))

mutual

/-- Decides the dense-numbering law at every node of a subtree. -/
def vciLawB {α : Type} : TreeNode α → Bool
  | .mk _ cs => vciDense cs && vciLawListB cs

def vciLawListB {α : Type} : List (TreeNode α) → Bool
  | [] => true
  | c :: cs => vciLawB c && vciLawListB cs

end

/-- The dense-numbering law over the whole tree (root's children run
included). -/
def vciClaimHolds {α : Type} (root : TreeNode α) : Bool :=
  vciLawB root

mutual

/-- All node ids of a subtree in depth-first order. -/
def treeIds {α : Type} : TreeNode α → List Nat
  | .mk d cs => d.id :: treeIdsList cs

def treeIdsList {α : Type} : List (TreeNode α) → List Nat
  | [] => []
  | c :: cs => treeIds c ++ treeIdsList cs

end

/-- One public operation of the model, for stating properties of operation
sequences. -/
inductive Op (α : Type) where
  | splice (loc : List Int) (deleteCount : Int) (toInsert : List (TreeElement α))
  | setCollapsed (loc : List Int) (collapsed : Option Bool) (recursive : Option Bool)
  | refilter
  | expandTo (loc : List Int)

/-- Applies one operation; a thrown invalid-location error leaves the state
untouched (the source walks the location in full before mutating, which is
exactly the content of the error-handling claims below). -/
def applyOp {α : Type} (m : Model α) : Op α → Model α
  | .splice loc dc ins =>
    match m.splice loc dc ins with
    | .ok r => r.1
    | .error _ => m
  | .setCollapsed loc c r =>
    match Model.setCollapsed m loc c r with
    | .ok r2 => r2.1
    | .error _ => m
  | .refilter => m.refilter
  | .expandTo loc =>
    match m.expandTo loc with
    | .ok m2 => m2
    | .error _ => m

/-- Applies a sequence of operations in order. -/
def applyOps {α : Type} (m : Model α) (ops : List (Op α)) : Model α :=
  ops.foldl applyOp m

/-- True when an `Except` value is a success. -/
def isOkE {ε β : Type} : Except ε β → Bool
  | .ok _ => true
  | .error _ => false

/-- The model after a `setCollapsed` call under exception semantics (a
thrown resolution error leaves the state untouched). -/
def scModel {α : Type} (m : Model α) (loc : List Int) (c r : Option Bool) : Model α :=
  match Model.setCollapsed m loc c r with
  | .ok x => x.1
  | .error _ => m

/-- The boolean result of a successful `setCollapsed` call. -/
def scResult {α : Type} (m : Model α) (loc : List Int) (c r : Option Bool) : Option Bool :=
  match Model.setCollapsed m loc c r with
  | .ok x => some x.2
  | .error _ => none

/-- The model after an `expandTo` call under exception semantics. -/
def etModel {α : Type} (m : Model α) (loc : List Int) : Model α :=
  match m.expandTo loc with
  | .ok x => x
  | .error _ => m

/-- Decides that a location has a strictly out-of-bounds sibling index
(negative, or greater than the child count) at its first invalid level,
reached through strictly in-bounds earlier components. -/
def strictOOB {α : Type} : TreeNode α → List Int → Bool
  | _, [] => false
  | n, i :: rest =>
    if i < 0 ∨ (n.children.length : Int) < i then true
    else
      match n.children[i.toNat]? with
      | some c => strictOOB c rest
      | none => false

mutual

/-- The element snapshot a splice deletion is specified to return: the same
payloads in the same order, with the resolved collapse state recorded (the
`collapsible` property is not part of the returned snapshot). -/
def elementSnapshot {α : Type} (collapseByDefault : Bool) : TreeElement α → TreeElement α
  | .mk e cs _ c =>
    .mk e (elementSnapshotList collapseByDefault cs) none
      (some (match c with | some b => b | none => collapseByDefault))

def elementSnapshotList {α : Type} (collapseByDefault : Bool) :
    List (TreeElement α) → List (TreeElement α)
  | [] => []
  | el :: els =>
    elementSnapshot collapseByDefault el :: elementSnapshotList collapseByDefault els

end

/-- Filter used by the concrete scenarios: everything visible. -/
def filterAllVisible : TreeFilterFn Nat := fun _ _ => TreeVisibility.Visible

/-- Leaf tree element with no creation flags. -/
def leafEl (n : Nat) : TreeElement Nat := TreeElement.mk n [] none none

/-- Filter of the refilter scenarios: element 10 answers `Recurse`; elements
3 and 5 answer `Visible` only in a `Visible` parent context (the context a
splice passes for a visible parent) and `Hidden` otherwise (in particular in
the raw `Recurse` context a refilter pass passes down); everything else is
visible.  A fixed pure function of element and context, as the interface
specifies. -/
def contextFilter : TreeFilterFn Nat := fun el pv =>
  if el == 10 then TreeVisibility.Recurse
  else if el == 3 || el == 5 then
    (if pv == some TreeVisibility.Visible then TreeVisibility.Visible
     else TreeVisibility.Hidden)
  else TreeVisibility.Visible

/-- Compact node-literal constructor for the concrete scenario states. -/
def nd (id el depth : Nat) (vcc vci : Int) (cb cc : Bool) (rnc : Int) (vis : Bool)
    (cs : List (TreeNode Nat)) : TreeNode Nat :=
  TreeNode.mk
    { id := id, element := el, depth := depth, visibleChildrenCount := vcc,
      visibleChildIndex := vci, collapsible := cb, collapsed := cc,
      renderNodeCount := rnc, visible := vis } cs

/-- State after inserting element 10 (with child 1) at `[0]` into a fresh
model over `contextFilter`. -/
def sX1 : Model Nat :=
  { root := nd 0 0 0 1 (-1) false false 2 true
      [nd 1 10 1 1 0 true false 2 true
        [nd 2 1 2 0 0 false false 1 true []]],
    list := [10, 1], collapseByDefault := false, filter := contextFilter,
    autoExpandSingleChildren := false, nextId := 3 }

/-- State after additionally inserting element 3 at `[0, 1]`. -/
def sX2 : Model Nat :=
  { root := nd 0 0 0 1 (-1) false false 3 true
      [nd 1 10 1 2 0 true false 3 true
        [nd 2 1 2 0 0 false false 1 true [],
         nd 3 3 2 0 0 false false 1 true []]],
    list := [10, 1, 3], collapseByDefault := false, filter := contextFilter,
    autoExpandSingleChildren := false, nextId := 4 }

/-- State after refiltering `sX2`: element 3 is now hidden but its cached
`renderNodeCount` is left at 1. -/
def sX3 : Model Nat :=
  { root := nd 0 0 0 1 (-1) false false 2 true
      [nd 1 10 1 1 0 true false 2 true
        [nd 2 1 2 0 0 false false 1 true [],
         nd 3 3 2 0 0 false false 1 false []]],
    list := [10, 1], collapseByDefault := false, filter := contextFilter,
    autoExpandSingleChildren := false, nextId := 4 }

/-- State after additionally inserting element 2 at `[0, 2]` into `sX2`. -/
def sY3 : Model Nat :=
  { root := nd 0 0 0 1 (-1) false false 4 true
      [nd 1 10 1 3 0 true false 4 true
        [nd 2 1 2 0 0 false false 1 true [],
         nd 3 3 2 0 0 false false 1 true [],
         nd 4 2 2 0 0 false false 1 true []]],
    list := [10, 1, 3, 2], collapseByDefault := false, filter := contextFilter,
    autoExpandSingleChildren := false, nextId := 5 }

/-- State after refiltering `sY3`: element 3 hidden with stale render count
1. -/
def sY4 : Model Nat :=
  { root := nd 0 0 0 1 (-1) false false 3 true
      [nd 1 10 1 2 0 true false 3 true
        [nd 2 1 2 0 0 false false 1 true [],
         nd 3 3 2 0 0 false false 1 false [],
         nd 4 2 2 0 1 false false 1 true []]],
    list := [10, 1, 2], collapseByDefault := false, filter := contextFilter,
    autoExpandSingleChildren := false, nextId := 5 }

/-- State after inserting element 4 at `[0, 2]` into `sY4`: the stale render
count of the hidden element 3 shifted the computed list offset, so row 4
lands after row 2 while the tree order puts node 4 before node 2. -/
def sY5 : Model Nat :=
  { root := nd 0 0 0 1 (-1) false false 4 true
      [nd 1 10 1 3 0 true false 4 true
        [nd 2 1 2 0 0 false false 1 true [],
         nd 3 3 2 0 0 false false 1 false [],
         nd 5 4 2 0 1 false false 1 true [],
         nd 4 2 2 0 1 false false 1 true []]],
    list := [10, 1, 2, 4], collapseByDefault := false, filter := contextFilter,
    autoExpandSingleChildren := false, nextId := 6 }

/-- State after inserting element 5 at `[0, 2]` into `sX2`. -/
def sZ3 : Model Nat :=
  { root := nd 0 0 0 1 (-1) false false 4 true
      [nd 1 10 1 3 0 true false 4 true
        [nd 2 1 2 0 0 false false 1 true [],
         nd 3 3 2 0 0 false false 1 true [],
         nd 4 5 2 0 0 false false 1 true []]],
    list := [10, 1, 3, 5], collapseByDefault := false, filter := contextFilter,
    autoExpandSingleChildren := false, nextId := 5 }

/-- State after refiltering `sZ3`: elements 3 and 5 hidden, both with stale
render count 1. -/
def sZ4 : Model Nat :=
  { root := nd 0 0 0 1 (-1) false false 2 true
      [nd 1 10 1 1 0 true false 2 true
        [nd 2 1 2 0 0 false false 1 true [],
         nd 3 3 2 0 0 false false 1 false [],
         nd 4 5 2 0 0 false false 1 false []]],
    list := [10, 1], collapseByDefault := false, filter := contextFilter,
    autoExpandSingleChildren := false, nextId := 5 }

/-- State after inserting element 7 at `[0, 3]` into `sZ4`: the two stale
render counts push the computed list offset to 4, past the projection's
length 2, so the row is appended by the splice clamping. -/
def sZ5 : Model Nat :=
  { root := nd 0 0 0 1 (-1) false false 3 true
      [nd 1 10 1 2 0 true false 3 true
        [nd 2 1 2 0 0 false false 1 true [],
         nd 3 3 2 0 0 false false 1 false [],
         nd 4 5 2 0 0 false false 1 false [],
         nd 5 7 2 0 0 false false 1 true []]],
    list := [10, 1, 7], collapseByDefault := false, filter := contextFilter,
    autoExpandSingleChildren := false, nextId := 6 }

/-- State after deleting the freshly inserted element at `[0, 3]` from `sZ5`:
the node is gone from the tree, but the delete splice again starts past the
projection end and removes nothing, so row 7 survives. -/
def sZ6 : Model Nat :=
  { root := nd 0 0 0 1 (-1) false false 2 true
      [nd 1 10 1 1 0 true false 2 true
        [nd 2 1 2 0 0 false false 1 true [],
         nd 3 3 2 0 0 false false 1 false [],
         nd 4 5 2 0 0 false false 1 false []]],
    list := [10, 1, 7], collapseByDefault := false, filter := contextFilter,
    autoExpandSingleChildren := false, nextId := 6 }

/-- Auto-expand scenario state: expanded parent 1 with a single collapsed
child 2, in a model with `autoExpandSingleChildren` on. -/
def sC7 : Model Nat :=
  { root := nd 0 0 0 1 (-1) false false 2 true
      [nd 1 1 1 1 0 true false 2 true
        [nd 2 2 2 0 0 true true 1 true []]],
    list := [1, 2], collapseByDefault := false, filter := filterAllVisible,
    autoExpandSingleChildren := true, nextId := 3 }

/-- Auto-expand scenario state for `expandTo`: collapsed parent 1 with a
single collapsed child 2, in a model with `autoExpandSingleChildren` on. -/
def sC9 : Model Nat :=
  { root := nd 0 0 0 1 (-1) false false 1 true
      [nd 1 1 1 1 0 true true 1 true
        [nd 2 2 2 0 0 true true 1 true []]],
    list := [1], collapseByDefault := false, filter := filterAllVisible,
    autoExpandSingleChildren := true, nextId := 3 }

/-- Scenario state used by the visibleChildIndex theorems: one leaf
inserted at the root. -/
def sC6a : Model Nat :=
  { root := nd 0 0 0 1 (-1) false false 1 true
      [nd 1 1 1 0 0 false false 1 true []],
    list := [1], collapseByDefault := false, filter := filterAllVisible,
    autoExpandSingleChildren := false, nextId := 2 }

/-- Scenario state after a second insert-only splice at position 0: both
visible children carry `visibleChildIndex` 0. -/
def sC6b : Model Nat :=
  { root := nd 0 0 0 2 (-1) false false 2 true
      [nd 2 2 1 0 0 false false 1 true [],
       nd 1 1 1 0 0 false false 1 true []],
    list := [2, 1], collapseByDefault := false, filter := filterAllVisible,
    autoExpandSingleChildren := false, nextId := 3 }

/-- Nat-indexed collapse-state lookup inside a run of siblings (helper for
stating which collapse flags an operation touched). -/
def lookC {α : Type} (cs : List (TreeNode α)) (k : Nat) (q : List Int) : Option Bool :=
  match cs[k]? with
  | some x => collapsedAtNode x q
  | none => none

/-- Grandchild of the literal witness model: collapsible and collapsed. -/
def wChild2 : TreeNode Nat := nd 2 8 2 0 0 true true 1 true []

/-- Child of the literal witness model: collapsible and expanded. -/
def wChild : TreeNode Nat := nd 1 7 1 0 0 true false 2 true [wChild2]

/-- Small literal model used to instantiate the collapse-state theorems. -/
def wModel : Model Nat :=
  { root := nd 0 0 0 1 (-1) false false 2 true [wChild],
    list := [7, 8], collapseByDefault := false, filter := filterAllVisible,
    autoExpandSingleChildren := false, nextId := 3 }

/-- The collapsible/collapsed pair of the node addressed by a location
(`none` when the location addresses nothing). -/
def ccAt {α : Type} (n : TreeNode α) (q : List Int) : Option (Bool × Bool) :=
  (nodeAt n q).map (fun c => (c.data.collapsible, c.data.collapsed))

/-- Nat-indexed collapsible/collapsed lookup inside a run of siblings. -/
def lookP {α : Type} (cs : List (TreeNode α)) (k : Nat) (q : List Int) :
    Option (Bool × Bool) :=
  match cs[k]? with
  | some x => ccAt x q
  | none => none

/-- The mutated parent node a successful `splice` writes back at the end of
the resolved location (children spliced, `visibleChildrenCount` updated, and
when the node is revealed and visible the render-count delta applied). -/
def spliceX {α : Type} (m : Model α) (location : List Int) (deleteCount : Int)
    (toInsert : List (TreeElement α)) (parentNode : TreeNode α)
    (revealed visible : Bool) : TreeNode α :=
  let L := createTreeNodeList m.filter m.collapseByDefault toInsert parentNode.data.depth
    (some (if parentNode.data.visible then TreeVisibility.Visible else TreeVisibility.Hidden))
    revealed m.nextId
  let lastIndex : Int := location.getLastD 0
  let A := assignVci L.1 (visibleStartScan parentNode.children lastIndex)
  let JS := jsSplice parentNode.children lastIndex deleteCount A.1
  let dvcc := countVisible JS.2
  let newChildren2 := if dvcc ≠ 0 then adjustVciFrom JS.1 (lastIndex + A.1.length) dvcc
    else JS.1
  let parent2 := parentNode.withChildren newChildren2
  let parent3 := parent2.withData { parent2.data with visibleChildrenCount :=
    parent2.data.visibleChildrenCount
      + (A.2 - visibleStartScan parentNode.children lastIndex) - dvcc }
  let diff : Int := if revealed && visible then rncSum A.1 - rncSum JS.2 else 0
  if revealed && visible then parent3.addRnc diff else parent3

/-- The render-count delta a successful `splice` adds to the ancestors of
the resolved location. -/
def spliceD {α : Type} (m : Model α) (location : List Int) (deleteCount : Int)
    (toInsert : List (TreeElement α)) (parentNode : TreeNode α)
    (revealed visible : Bool) : Int :=
  let L := createTreeNodeList m.filter m.collapseByDefault toInsert parentNode.data.depth
    (some (if parentNode.data.visible then TreeVisibility.Visible else TreeVisibility.Hidden))
    revealed m.nextId
  let lastIndex : Int := location.getLastD 0
  let A := assignVci L.1 (visibleStartScan parentNode.children lastIndex)
  let JS := jsSplice parentNode.children lastIndex deleteCount A.1
  if revealed && visible then rncSum A.1 - rncSum JS.2 else 0

/-- The tail of `IndexTreeModel.splice` after a successful location
resolution, written with explicit projections (definitionally equal to the
match/let cascade in `Model.splice`). -/
def spliceAfter {α : Type} (m : Model α) (location : List Int) (deleteCount : Int)
    (toInsert : List (TreeElement α)) (parentNode : TreeNode α) (listIndex : Int)
    (revealed visible : Bool) : Model α × List (TreeElement α) :=
  let L := createTreeNodeList m.filter m.collapseByDefault toInsert parentNode.data.depth
    (some (if parentNode.data.visible then TreeVisibility.Visible else TreeVisibility.Hidden))
    revealed m.nextId
  let lastIndex : Int := location.getLastD 0
  let A := assignVci L.1 (visibleStartScan parentNode.children lastIndex)
  let JS := jsSplice parentNode.children lastIndex deleteCount A.1
  ({ m with
      root := (updateTreeAt m.root location.dropLast
        (fun _ => (spliceX m location deleteCount toInsert parentNode revealed visible,
          spliceD m location deleteCount toInsert parentNode revealed visible))).1,
      list := if revealed && visible then
          (jsSplice m.list listIndex (rncSum JS.2) L.2.1).1
        else m.list,
      nextId := L.2.2 },
    JS.2.map treeNodeToElement)

set_option maxHeartbeats 1000000

theorem step_sX1 :
    applyOp (mkModel 0 false contextFilter false)
      (Op.splice [0] 0 [TreeElement.mk 10 [leafEl 1] none none]) = sX1 := by rfl

theorem step_sX2 : applyOp sX1 (Op.splice [0, 1] 0 [leafEl 3]) = sX2 := by rfl

theorem step_sX3 : applyOp sX2 Op.refilter = sX3 := by rfl

theorem step_sY3 : applyOp sX2 (Op.splice [0, 2] 0 [leafEl 2]) = sY3 := by rfl

theorem step_sY4 : applyOp sY3 Op.refilter = sY4 := by rfl

theorem step_sY5 : applyOp sY4 (Op.splice [0, 2] 0 [leafEl 4]) = sY5 := by rfl

theorem step_sZ3 : applyOp sX2 (Op.splice [0, 2] 0 [leafEl 5]) = sZ3 := by rfl

theorem step_sZ4 : applyOp sZ3 Op.refilter = sZ4 := by rfl

theorem step_sZ5 : applyOp sZ4 (Op.splice [0, 3] 0 [leafEl 7]) = sZ5 := by rfl

theorem step_sZ6 : applyOp sZ5 (Op.splice [0, 3] 1 []) = sZ6 := by rfl

theorem step_sC6a :
    applyOp (mkModel 0 false filterAllVisible false) (Op.splice [0] 0 [leafEl 1]) = sC6a := by rfl

theorem step_sC6b : applyOp sC6a (Op.splice [0] 0 [leafEl 2]) = sC6b := by rfl

theorem step_sC7 :
    applyOp (mkModel 0 false filterAllVisible true)
      (Op.splice [0] 0 [TreeElement.mk 1 [TreeElement.mk 2 [] none (some true)] none (some false)])
      = sC7 := by rfl

theorem step_sC9 :
    applyOp (mkModel 0 false filterAllVisible true)
      (Op.splice [0] 0 [TreeElement.mk 1 [TreeElement.mk 2 [] none (some true)] none (some true)])
      = sC9 := by rfl

/-- C1: refuted on the code.  After the operation sequence splice, splice,
splice, refilter, splice (over a fixed pure filter whose verdict for one
element depends on the parent-visibility context, as the contract allows),
the render projection holds rows [10, 1, 2, 4] while the depth-first
traversal of the visible, non-collapsed nodes is [10, 1, 4, 2]: the refilter
pass leaves the newly hidden node's `renderNodeCount` stale at 1 instead of
0, so the final splice computes flat-list offset 3 instead of 2 and writes
the new row past its tree position. -/
theorem refilter_breaks_projection_traversal_sync :
    (applyOps (mkModel 0 false contextFilter false)
      [ Op.splice [0] 0 [TreeElement.mk 10 [leafEl 1] none none],
        Op.splice [0, 1] 0 [leafEl 3],
        Op.splice [0, 2] 0 [leafEl 2],
        Op.refilter,
        Op.splice [0, 2] 0 [leafEl 4] ]).list = [10, 1, 2, 4]
    ∧ projectionSpec (applyOps (mkModel 0 false contextFilter false)
      [ Op.splice [0] 0 [TreeElement.mk 10 [leafEl 1] none none],
        Op.splice [0, 1] 0 [leafEl 3],
        Op.splice [0, 2] 0 [leafEl 2],
        Op.refilter,
        Op.splice [0, 2] 0 [leafEl 4] ]).root = [10, 1, 4, 2] := by
  have h : applyOps (mkModel 0 false contextFilter false)
      [ Op.splice [0] 0 [TreeElement.mk 10 [leafEl 1] none none],
        Op.splice [0, 1] 0 [leafEl 3],
        Op.splice [0, 2] 0 [leafEl 2],
        Op.refilter,
        Op.splice [0, 2] 0 [leafEl 4] ] = sY5 := by
    simp only [applyOps, List.foldl_cons, List.foldl_nil]
    rw [step_sX1, step_sX2, step_sY3, step_sY4, step_sY5]
  rw [h]
  exact ⟨rfl, rfl⟩

/-- C2: refuted on the code.  After splice, splice, refilter over the same
fixed filter, the node at location [0, 1] is hidden (`visible = false`) yet
its cached `renderNodeCount` is 1, not 0: `_updateNodeAfterFilterChange`
returns early on a `Hidden` verdict without resetting the cache.  The
claimed render-count law fails on the resulting tree. -/
theorem refilter_leaves_hidden_renderNodeCount_stale :
    ((nodeAt (applyOps (mkModel 0 false contextFilter false)
      [ Op.splice [0] 0 [TreeElement.mk 10 [leafEl 1] none none],
        Op.splice [0, 1] 0 [leafEl 3],
        Op.refilter ]).root [0, 1]).map
        (fun n => (n.data.visible, n.data.renderNodeCount)) = some (false, 1))
    ∧ rncClaimHolds (applyOps (mkModel 0 false contextFilter false)
      [ Op.splice [0] 0 [TreeElement.mk 10 [leafEl 1] none none],
        Op.splice [0, 1] 0 [leafEl 3],
        Op.refilter ]).root = false := by
  have h : applyOps (mkModel 0 false contextFilter false)
      [ Op.splice [0] 0 [TreeElement.mk 10 [leafEl 1] none none],
        Op.splice [0, 1] 0 [leafEl 3],
        Op.refilter ] = sX3 := by
    simp only [applyOps, List.foldl_cons, List.foldl_nil]
    rw [step_sX1, step_sX2, step_sX3]
  rw [h]
  exact ⟨rfl, rfl⟩

/-- C6: refuted on the code.  Two insert-only splices at position 0 leave
both visible children with `visibleChildIndex` 0: the adjustment loop after
the splice point only runs when visible children were deleted and only
subtracts the deleted count, never adding the inserted count, so the
numbering of the visible children is not the dense 0..k-1 run the claim
states. -/
theorem splice_duplicates_visibleChildIndex :
    ((applyOps (mkModel 0 false filterAllVisible false)
      [ Op.splice [0] 0 [leafEl 1], Op.splice [0] 0 [leafEl 2] ]).root.children.map
        (fun c => (c.data.visible, c.data.visibleChildIndex)) = [(true, 0), (true, 0)])
    ∧ vciClaimHolds (applyOps (mkModel 0 false filterAllVisible false)
      [ Op.splice [0] 0 [leafEl 1], Op.splice [0] 0 [leafEl 2] ]).root = false := by
  have h : applyOps (mkModel 0 false filterAllVisible false)
      [ Op.splice [0] 0 [leafEl 1], Op.splice [0] 0 [leafEl 2] ] = sC6b := by
    simp only [applyOps, List.foldl_cons, List.foldl_nil]
    rw [step_sC6a, step_sC6b]
  rw [h]
  exact ⟨rfl, rfl⟩

/-- C3 counterexample: the insert-then-delete round trip does not always
restore the projection.  In the reachable state `sZ4` (two refilter-hidden
siblings with stale render counts before the splice point), inserting
element 7 at the valid location [0, 3] and deleting it again leaves row 7 in
the projection: both splices succeed, but the computed flat offset 4 lies
past the projection length 2, so the insert is clamped to an append and the
delete removes nothing. -/
theorem roundTrip_counterexample :
    isOkE (Model.splice (applyOps (mkModel 0 false contextFilter false)
      [ Op.splice [0] 0 [TreeElement.mk 10 [leafEl 1] none none],
        Op.splice [0, 1] 0 [leafEl 3],
        Op.splice [0, 2] 0 [leafEl 5],
        Op.refilter ]) [0, 3] 0 [leafEl 7]) = true
    ∧ isOkE (Model.splice (applyOp (applyOps (mkModel 0 false contextFilter false)
      [ Op.splice [0] 0 [TreeElement.mk 10 [leafEl 1] none none],
        Op.splice [0, 1] 0 [leafEl 3],
        Op.splice [0, 2] 0 [leafEl 5],
        Op.refilter ]) (Op.splice [0, 3] 0 [leafEl 7])) [0, 3] 1 []) = true
    ∧ (applyOp (applyOp (applyOps (mkModel 0 false contextFilter false)
      [ Op.splice [0] 0 [TreeElement.mk 10 [leafEl 1] none none],
        Op.splice [0, 1] 0 [leafEl 3],
        Op.splice [0, 2] 0 [leafEl 5],
        Op.refilter ]) (Op.splice [0, 3] 0 [leafEl 7])) (Op.splice [0, 3] 1 [])).list
      ≠ (applyOps (mkModel 0 false contextFilter false)
      [ Op.splice [0] 0 [TreeElement.mk 10 [leafEl 1] none none],
        Op.splice [0, 1] 0 [leafEl 3],
        Op.splice [0, 2] 0 [leafEl 5],
        Op.refilter ]).list := by
  have h : applyOps (mkModel 0 false contextFilter false)
      [ Op.splice [0] 0 [TreeElement.mk 10 [leafEl 1] none none],
        Op.splice [0, 1] 0 [leafEl 3],
        Op.splice [0, 2] 0 [leafEl 5],
        Op.refilter ] = sZ4 := by
    simp only [applyOps, List.foldl_cons, List.foldl_nil]
    rw [step_sX1, step_sX2, step_sZ3, step_sZ4]
  rw [h, step_sZ5, step_sZ6]
  refine ⟨rfl, rfl, by decide⟩

/-- C4 counterexample: a sibling index equal to the child count at the final
level is accepted, not rejected: splicing at [0] under the fresh root, whose
child count is 0, succeeds (it denotes the append position). -/
theorem splice_at_child_count_succeeds :
    (mkModel 0 false filterAllVisible false).root.children.length = 0
    ∧ isOkE (Model.splice (mkModel 0 false filterAllVisible false) [0] 0 [leafEl 1]) = true := by
  exact ⟨rfl, rfl⟩

/-- C7 counterexample: with `autoExpandSingleChildren` on, expanding the
already expanded node 1 reports false although the collapse state of its
single visible child (location [0, 0]) actually changed from collapsed to
expanded by the auto-expand walk. -/
theorem setCollapsed_result_counterexample :
    scResult (applyOps (mkModel 0 false filterAllVisible true)
      [ Op.splice [0] 0
          [TreeElement.mk 1 [TreeElement.mk 2 [] none (some true)] none (some false)] ])
      [0] (some false) none = some false
    ∧ collapsedAtNode (scModel (applyOps (mkModel 0 false filterAllVisible true)
      [ Op.splice [0] 0
          [TreeElement.mk 1 [TreeElement.mk 2 [] none (some true)] none (some false)] ])
      [0] (some false) none).root [0, 0] = some false
    ∧ collapsedAtNode (applyOps (mkModel 0 false filterAllVisible true)
      [ Op.splice [0] 0
          [TreeElement.mk 1 [TreeElement.mk 2 [] none (some true)] none (some false)] ]).root
      [0, 0] = some true := by
  have h : applyOps (mkModel 0 false filterAllVisible true)
      [ Op.splice [0] 0
          [TreeElement.mk 1 [TreeElement.mk 2 [] none (some true)] none (some false)] ] = sC7 := by
    simp only [applyOps, List.foldl_cons, List.foldl_nil]
    rw [step_sC7]
  rw [h]
  exact ⟨rfl, rfl, rfl⟩

/-- C9 counterexample: with `autoExpandSingleChildren` on, `expandTo [0, 0]`
also expands the addressed node itself (its collapse flag flips from true to
false), because expanding the parent auto-expands its single visible child,
which is the target. -/
theorem expandTo_counterexample :
    collapsedAtNode (applyOps (mkModel 0 false filterAllVisible true)
      [ Op.splice [0] 0
          [TreeElement.mk 1 [TreeElement.mk 2 [] none (some true)] none (some true)] ]).root
      [0, 0] = some true
    ∧ collapsedAtNode (etModel (applyOps (mkModel 0 false filterAllVisible true)
      [ Op.splice [0] 0
          [TreeElement.mk 1 [TreeElement.mk 2 [] none (some true)] none (some true)] ])
      [0, 0]).root [0, 0] = some false := by
  have h : applyOps (mkModel 0 false filterAllVisible true)
      [ Op.splice [0] 0
          [TreeElement.mk 1 [TreeElement.mk 2 [] none (some true)] none (some true)] ] = sC9 := by
    simp only [applyOps, List.foldl_cons, List.foldl_nil]
    rw [step_sC9]
  rw [h]
  exact ⟨rfl, rfl⟩

/-- Any location with a strictly out-of-bounds component makes the
resolution walk throw the invalid-location error at that first invalid
level, whatever comes after it. -/
theorem strictOOB_resolver_errors {α : Type} :
    ∀ (loc : List Int) (n : TreeNode α) (li : Int) (rev vis : Bool),
      strictOOB n loc = true →
      getParentNodeWithListIndex loc n li rev vis = .error invalidLocationMsg := by
  intro loc
  induction loc with
  | nil => intro n li rev vis h; simp [strictOOB] at h
  | cons i rest ih =>
    intro n li rev vis h
    rw [strictOOB] at h
    rw [getParentNodeWithListIndex]
    by_cases hb : i < 0 ∨ (n.children.length : Int) < i
    · simp [hb]
    · simp only [if_neg hb] at h ⊢
      cases hg : n.children[i.toNat]? with
      | none => rw [hg] at h; simp at h
      | some c =>
        rw [hg] at h
        have h2 : strictOOB c rest = true := h
        have hrest : rest ≠ [] := by
          intro he; subst he; simp [strictOOB] at h2
        simp only [List.isEmpty_iff, if_neg hrest]
        exact ih c _ _ _ h2

/-- When the resolution walk throws, splice propagates exactly that error. -/
theorem splice_resolver_error {α : Type} (m : Model α) (loc : List Int)
    (dc : Int) (ins : List (TreeElement α)) (e : String) (hl : loc ≠ [])
    (hg : getParentNodeWithListIndex loc m.root 0 true true = .error e) :
    Model.splice m loc dc ins = .error e := by
  rw [Model.splice]
  rw [if_neg (by simp [hl])]
  rw [hg]
  rfl

/-- When the resolution walk succeeds, the whole mutation phase of splice is
total: the call returns a result, never an error. -/
theorem splice_resolver_ok {α : Type} (m : Model α) (loc : List Int)
    (dc : Int) (ins : List (TreeElement α)) (r : TreeNode α × Int × Bool × Bool)
    (hl : loc ≠ [])
    (hg : getParentNodeWithListIndex loc m.root 0 true true = .ok r) :
    ∃ x, Model.splice m loc dc ins = .ok x := by
  rw [Model.splice]
  rw [if_neg (by simp [hl])]
  rw [hg]
  exact ⟨_, rfl⟩

/-- C4 (amended): splicing at the empty location fails with the
invalid-location error, and so does any location with a component that is
negative or strictly greater than the child count at its level (reached
through strictly in-bounds earlier components), detected at that first
invalid level.  (As stated the claim is refuted: an index equal to the child
count at the final level is the accepted append position, and at an
intermediate level it crashes with a type error instead.) -/
theorem splice_invalid_location_error {α : Type} :
    (∀ (m : Model α) (dc : Int) (ins : List (TreeElement α)),
        Model.splice m [] dc ins = .error invalidLocationMsg)
    ∧ (∀ (m : Model α) (loc : List Int) (dc : Int) (ins : List (TreeElement α)),
        strictOOB m.root loc = true →
        Model.splice m loc dc ins = .error invalidLocationMsg) := by
  constructor
  · intro m dc ins; rfl
  · intro m loc dc ins h
    have hl : loc ≠ [] := by intro he; subst he; simp [strictOOB] at h
    exact splice_resolver_error m loc dc ins _ hl
      (strictOOB_resolver_errors loc m.root 0 true true h)

/-- Witness for the invalid-location theorem at index 1 under a childless
root. -/
theorem splice_invalid_location_error_witness :
    Model.splice (mkModel 0 false filterAllVisible false) [1] 0 [] = .error invalidLocationMsg :=
  (splice_invalid_location_error (α := Nat)).2 _ [1] 0 [] (by rfl)

/-- C5: a splice call fails exactly when the location resolution walked
before any mutation fails (the empty location or a resolver error), and a
failed call leaves the model exactly as it was: under the exception
semantics of `applyOp`, the state after a throwing splice is the unchanged
state, because the mutation phase only runs after resolution succeeded and
then never throws. -/
theorem failed_splice_leaves_state_untouched {α : Type} (m : Model α) (loc : List Int)
    (dc : Int) (ins : List (TreeElement α)) :
    ((∃ e, Model.splice m loc dc ins = .error e) ↔
      (loc = [] ∨ ∃ e, getParentNodeWithListIndex loc m.root 0 true true = .error e))
    ∧ (∀ e, Model.splice m loc dc ins = .error e → applyOp m (Op.splice loc dc ins) = m) := by
  constructor
  · by_cases hl : loc = []
    · subst hl
      constructor
      · intro _; exact Or.inl rfl
      · intro _; exact ⟨invalidLocationMsg, rfl⟩
    · cases hg : getParentNodeWithListIndex loc m.root 0 true true with
      | error e =>
        have h := splice_resolver_error m loc dc ins e hl hg
        constructor
        · intro _; exact Or.inr ⟨e, rfl⟩
        · intro _; exact ⟨e, h⟩
      | ok r =>
        obtain ⟨x, hx⟩ := splice_resolver_ok m loc dc ins r hl hg
        constructor
        · rintro ⟨e, he⟩
          rw [hx] at he
          exact absurd he (by simp)
        · rintro (h1 | ⟨e, he⟩)
          · exact absurd h1 hl
          · exact absurd he (by simp)
  · intro e he
    simp [applyOp, he]

/-- Witness for the failed-splice theorem: an out-of-bounds splice on a
fresh model throws and the state is untouched. -/
theorem failed_splice_leaves_state_untouched_witness :
    applyOp (mkModel 0 false filterAllVisible false) (Op.splice [5] 0 [])
      = mkModel 0 false filterAllVisible false :=
  (failed_splice_leaves_state_untouched (mkModel 0 false filterAllVisible false) [5] 0 []).2
    invalidLocationMsg (by rfl)

/-- Replacing only the bookkeeping data of a node keeps the recorded
visibility flag of the replacement data. -/
theorem withData_visible {α : Type} (c : TreeNode α) (d : NodeData α) :
    (c.withData d).data.visible = d.visible := by
  cases c; rfl

/-- Projection of the single-constructor node. -/
theorem data_visible_mk {α : Type} (d : NodeData α) (cs : List (TreeNode α)) :
    (TreeNode.mk d cs).data = d := rfl

/-- The index-assignment pass does not change which siblings are visible. -/
theorem assignVci_any_visible {α : Type} (cs : List (TreeNode α)) (k : Int) :
    ((assignVci cs k).1.any (fun c => c.data.visible)) = cs.any (fun c => c.data.visible) := by
  induction cs generalizing k with
  | nil => rfl
  | cons c cs ih =>
    rw [assignVci]
    by_cases h : c.data.visible = true
    · simp only [if_pos h, List.any_cons, withData_visible]
      cases c; simp [h, ih]
    · simp only [if_neg h, List.any_cons, ih]

/-- A run of siblings has a positive visible count exactly when one of them
is visible. -/
theorem countVisible_pos_iff_any {α : Type} (cs : List (TreeNode α)) :
    (0 < countVisible cs) ↔ cs.any (fun c => c.data.visible) = true := by
  simp [countVisible, List.any_eq_true, List.length_pos_iff_exists_mem]

/-- The final counter of the index-assignment pass counts the visible
siblings. -/
theorem assignVci_count {α : Type} (cs : List (TreeNode α)) (k : Int) :
    (assignVci cs k).2 = k + countVisible cs := by
  induction cs generalizing k with
  | nil => simp [assignVci, countVisible]
  | cons c cs ih =>
    rw [assignVci]
    by_cases h : c.data.visible = true
    · simp only [if_pos h, ih]
      simp [countVisible, List.filter, h]
      omega
    · simp only [if_neg h, ih]
      have h2 : c.data.visible = false := by revert h; cases c.data.visible <;> simp
      simp [countVisible, List.filter, h2]

/-- The visible-descendant flag accumulated by the refilter children walk is
exactly whether some re-evaluated child came out visible. -/
theorem updateList_hvd {α : Type} (f : TreeFilterFn α) (cs : List (TreeNode α))
    (pv : Option TreeVisibility) (rev : Bool) (k : Int) :
    (updateListAfterFilterChange f cs pv rev k).2.2.1 =
      (updateListAfterFilterChange f cs pv rev k).1.any (fun c => c.data.visible) := by
  induction cs generalizing k with
  | nil => rfl
  | cons c cs ih =>
    rw [updateListAfterFilterChange]
    cases hr : updateNodeAfterFilterChangeRec f false c pv rev with
    | mk c2 frag1 =>
      by_cases h : c2.data.visible = true
      · cases hrest : updateListAfterFilterChange f cs pv rev (k + 1) with
        | mk cs2 r2 =>
          obtain ⟨frag2, hvd2, kf⟩ := r2
          have hih := ih (k + 1)
          rw [hrest] at hih
          simp [h, hrest, withData_visible]
      · have h2 : c2.data.visible = false := by revert h; cases c2.data.visible <;> simp
        cases hrest : updateListAfterFilterChange f cs pv rev k with
        | mk cs2 r2 =>
          obtain ⟨frag2, hvd2, kf⟩ := r2
          have hih := ih k
          rw [hrest] at hih
          simp [h2, hrest]
          simpa using hih

/-- Creation-time visibility resolution of `createTreeNode`: `Recurse`
resolves to the presence of a visible child, `Visible` and `Hidden` are
absolute. -/
theorem recurse_visibility_creation {α : Type} (f : TreeFilterFn α) (cbd : Bool)
    (el : TreeElement α) (pd : Nat) (pv : Option TreeVisibility) (rev : Bool) (nid : Nat) :
    (f el.element pv = TreeVisibility.Recurse →
      ((createTreeNode f cbd el pd pv rev nid).1.data.visible = true ↔
        ∃ c ∈ (createTreeNode f cbd el pd pv rev nid).1.children, c.data.visible = true))
    ∧ (f el.element pv = TreeVisibility.Visible →
        (createTreeNode f cbd el pd pv rev nid).1.data.visible = true)
    ∧ (f el.element pv = TreeVisibility.Hidden →
        (createTreeNode f cbd el pd pv rev nid).1.data.visible = false) := by
  cases el with
  | mk element elChildren elCollapsible elCollapsed =>
    simp only [TreeElement.element]
    refine ⟨?_, ?_, ?_⟩
    · intro hv
      rw [createTreeNode.eq_def]
      simp only [hv]
      set X := (createTreeNodeList f cbd elChildren (pd + 1) (some TreeVisibility.Recurse)
        (rev && true && !(match elCollapsed with | some b => b | none => cbd)) (nid + 1)).1 with hX
      have hc := assignVci_count X 0
      have ha := assignVci_any_visible X 0
      constructor
      · intro h
        have h2 : (0 : Int) < (assignVci X 0).2 := of_decide_eq_true h
        rw [hc] at h2
        have h3 : 0 < countVisible X := by omega
        rw [countVisible_pos_iff_any] at h3
        rw [← ha] at h3
        rw [List.any_eq_true] at h3
        exact h3
      · intro h
        have h3 : (assignVci X 0).1.any (fun c => c.data.visible) = true :=
          List.any_eq_true.2 h
        rw [ha] at h3
        rw [← countVisible_pos_iff_any] at h3
        exact decide_eq_true (by rw [hc]; omega)
    · intro hv
      rw [createTreeNode.eq_def]
      simp only [hv]
      rfl
    · intro hv
      rw [createTreeNode.eq_def]
      simp only [hv]
      rfl

/-- Refilter-time visibility resolution of `_updateNodeAfterFilterChange`
for a non-root node: `Recurse` resolves to the presence of a visible child
among the re-evaluated children, `Visible` and `Hidden` are absolute. -/
theorem recurse_visibility_refilter {α : Type} (f : TreeFilterFn α) (n : TreeNode α)
    (pv : Option TreeVisibility) (rev : Bool) :
    (f n.data.element pv = TreeVisibility.Recurse →
      ((updateNodeAfterFilterChangeRec f false n pv rev).1.data.visible = true ↔
        ∃ c ∈ (updateNodeAfterFilterChangeRec f false n pv rev).1.children, c.data.visible = true))
    ∧ (f n.data.element pv = TreeVisibility.Visible →
        (updateNodeAfterFilterChangeRec f false n pv rev).1.data.visible = true)
    ∧ (f n.data.element pv = TreeVisibility.Hidden →
        (updateNodeAfterFilterChangeRec f false n pv rev).1.data.visible = false) := by
  cases n with
  | mk d cs =>
    simp only [data_visible_mk]
    refine ⟨?_, ?_, ?_⟩
    · intro hv
      rw [updateNodeAfterFilterChangeRec.eq_def]
      simp only [hv]
      simp only [Bool.or_true, reduceCtorEq, reduceIte, if_true, Bool.if_true_left]
      have hh := updateList_hvd f cs (some TreeVisibility.Recurse) (rev && !d.collapsed) 0
      constructor
      · intro h
        have h2 : (updateListAfterFilterChange f cs (some TreeVisibility.Recurse)
            (rev && !d.collapsed) 0).2.2.1 = true := h
        rw [hh] at h2
        rw [List.any_eq_true] at h2
        exact h2
      · intro h
        have h2 : (updateListAfterFilterChange f cs (some TreeVisibility.Recurse)
            (rev && !d.collapsed) 0).1.any (fun c => c.data.visible) = true :=
          List.any_eq_true.2 h
        rw [← hh] at h2
        exact h2
    · intro hv
      rw [updateNodeAfterFilterChangeRec.eq_def]
      simp only [hv]
      simp only [Bool.or_true, reduceCtorEq, reduceIte, if_true, Bool.if_true_left]
      rfl
    · intro hv
      rw [updateNodeAfterFilterChangeRec.eq_def]
      simp only [hv]
      rfl

/-- C8: a node whose filter verdict is `Recurse` ends up visible exactly
when one of its children is visible after the children are evaluated, both
at creation time during a splice and at re-evaluation time during a
refilter; a `Visible` verdict makes the node visible and a `Hidden` verdict
makes it invisible regardless of descendants. -/
theorem recurse_visibility_resolution {α : Type} :
    (∀ (f : TreeFilterFn α) (cbd : Bool) (el : TreeElement α) (pd : Nat)
        (pv : Option TreeVisibility) (rev : Bool) (nid : Nat),
      (f el.element pv = TreeVisibility.Recurse →
        ((createTreeNode f cbd el pd pv rev nid).1.data.visible = true ↔
          ∃ c ∈ (createTreeNode f cbd el pd pv rev nid).1.children, c.data.visible = true))
      ∧ (f el.element pv = TreeVisibility.Visible →
          (createTreeNode f cbd el pd pv rev nid).1.data.visible = true)
      ∧ (f el.element pv = TreeVisibility.Hidden →
          (createTreeNode f cbd el pd pv rev nid).1.data.visible = false))
    ∧ (∀ (f : TreeFilterFn α) (n : TreeNode α) (pv : Option TreeVisibility) (rev : Bool),
      (f n.data.element pv = TreeVisibility.Recurse →
        ((updateNodeAfterFilterChangeRec f false n pv rev).1.data.visible = true ↔
          ∃ c ∈ (updateNodeAfterFilterChangeRec f false n pv rev).1.children, c.data.visible = true))
      ∧ (f n.data.element pv = TreeVisibility.Visible →
          (updateNodeAfterFilterChangeRec f false n pv rev).1.data.visible = true)
      ∧ (f n.data.element pv = TreeVisibility.Hidden →
          (updateNodeAfterFilterChangeRec f false n pv rev).1.data.visible = false)) :=
  ⟨fun f cbd el pd pv rev nid => recurse_visibility_creation f cbd el pd pv rev nid,
   fun f n pv rev => recurse_visibility_refilter f n pv rev⟩

/-- Witness for the visibility-resolution theorem: a visible element created
under a splice and a refilter pass hiding element 3 in a Recurse context. -/
theorem recurse_visibility_resolution_witness :
    (createTreeNode contextFilter false (leafEl 1) 0
      (some TreeVisibility.Visible) true 1).1.data.visible = true
    ∧ (updateNodeAfterFilterChangeRec contextFilter false
        (nd 3 3 2 0 0 false false 1 true []) (some TreeVisibility.Recurse) true).1.data.visible
        = false := by
  constructor
  · exact ((recurse_visibility_resolution (α := Nat)).1 contextFilter false (leafEl 1) 0
      (some TreeVisibility.Visible) true 1).2.1 (by rfl)
  · exact ((recurse_visibility_resolution (α := Nat)).2 contextFilter
      (nd 3 3 2 0 0 false false 1 true []) (some TreeVisibility.Recurse) true).2.2 (by rfl)

/-- The id of a node heads its own id listing. -/
theorem treeIds_head {α : Type} (n : TreeNode α) : n.data.id ∈ treeIds n := by
  cases n with
  | mk d cs => rw [treeIds]; exact List.mem_cons_self _ _

/-- A sibling's id occurs in the id listing of the run. -/
theorem mem_treeIdsList {α : Type} (cs : List (TreeNode α)) (x : TreeNode α)
    (hx : x ∈ cs) : x.data.id ∈ treeIdsList cs := by
  induction cs with
  | nil => cases hx
  | cons c cs ih =>
    rw [treeIdsList]
    rcases List.mem_cons.1 hx with h | h
    · subst h; exact List.mem_append_left _ (treeIds_head x)
    · exact List.mem_append_right _ (ih h)

/-- Distinct ids of a node give distinct ids of its children's listing. -/
theorem treeIds_nodup_parts {α : Type} (d : NodeData α) (cs : List (TreeNode α))
    (h : (treeIds (TreeNode.mk d cs)).Nodup) : (treeIdsList cs).Nodup := by
  rw [treeIds] at h
  exact h.of_cons

/-- Distinct ids of a run restrict to each member subtree. -/
theorem idsList_nodup_child {α : Type} (cs : List (TreeNode α)) (c : TreeNode α)
    (hc : c ∈ cs) (h : (treeIdsList cs).Nodup) : (treeIds c).Nodup := by
  induction cs with
  | nil => cases hc
  | cons c0 cs ih =>
    rw [treeIdsList] at h
    rcases List.mem_cons.1 hc with h2 | h2
    · subst h2; exact h.of_append_left
    · exact ih h2 h.of_append_right

/-- Distinct subtree ids make the sibling head ids pairwise distinct. -/
theorem idsList_nodup_map {α : Type} (cs : List (TreeNode α))
    (h : (treeIdsList cs).Nodup) : (cs.map (fun c => c.data.id)).Nodup := by
  induction cs with
  | nil => exact List.nodup_nil
  | cons c cs ih =>
    rw [treeIdsList] at h
    rw [List.map_cons, List.nodup_cons]
    refine ⟨?_, ih h.of_append_right⟩
    intro hmem
    rcases List.mem_map.1 hmem with ⟨x, hx, hid⟩
    have h1 : c.data.id ∈ treeIds c := treeIds_head c
    have h2 : x.data.id ∈ treeIdsList cs := mem_treeIdsList cs x hx
    rw [hid] at h2
    exact (List.disjoint_of_nodup_append h) h1 h2

/-- With pairwise distinct head ids, the identity search finds exactly the
position the child sits at. -/
theorem findIdx_of_nodup_ids {α : Type} (cs : List (TreeNode α)) (j : Nat) (c : TreeNode α)
    (hn : (cs.map (fun x => x.data.id)).Nodup) (hj : cs[j]? = some c) :
    cs.findIdx? (fun x => x.data.id == c.data.id) = some j := by
  induction cs generalizing j with
  | nil => simp at hj
  | cons c0 cs ih =>
    cases j with
    | zero =>
      simp at hj
      subst hj
      simp [List.findIdx?_cons]
    | succ j =>
      simp at hj
      rw [List.map_cons, List.nodup_cons] at hn
      have hne : (c0.data.id == c.data.id) = false := by
        have hcm : c.data.id ∈ cs.map (fun x => x.data.id) :=
          List.mem_map.2 ⟨c, List.getElem?_mem hj, rfl⟩
        by_cases he : c0.data.id = c.data.id
        · rw [he] at hn; exact absurd hcm hn.1
        · simp [he]
      rw [List.findIdx?_cons, hne]
      simp only [Bool.false_eq_true, if_false]
      rw [List.findIdx?_succ, ih j hn.2 hj]
      rfl

/-- The cheap walk returns a node exactly when the plain lookup finds it
(strictly in-bounds components all the way). -/
theorem getTreeNode_ok_some_iff_nodeAt {α : Type} :
    ∀ (loc : List Int) (n t : TreeNode α),
      (getTreeNode loc (some n) = .ok (some t) ↔ nodeAt n loc = some t) := by
  intro loc
  induction loc with
  | nil =>
    intro n t
    rw [getTreeNode, nodeAt]
    constructor
    · intro h; cases h; rfl
    · intro h; cases h; rfl
  | cons i rest ih =>
    intro n t
    rw [getTreeNode, nodeAt]
    by_cases hneg : i < 0
    · rw [if_pos (Or.inl hneg), if_pos hneg]
      simp
    · rw [if_neg hneg]
      by_cases hgt : (n.children.length : Int) < i
      · rw [if_pos (Or.inr hgt)]
        have : n.children[i.toNat]? = none := by
          rw [List.getElem?_eq_none]
          omega
        rw [this]
        simp
      · rw [if_neg (by tauto)]
        cases hc : n.children[i.toNat]? with
        | none =>
          constructor
          · intro h
            exfalso
            cases rest with
            | nil => rw [getTreeNode] at h; cases h
            | cons r rs => rw [getTreeNode] at h; cases h
          · intro h; cases h
        | some c => exact ih c t

/-- Unfolding of the identity-based indexOf on a successful search. -/
theorem indexOfById_eq {α : Type} (cs : List (TreeNode α)) (i : Nat) (k : Nat)
    (h : cs.findIdx? (fun c => c.data.id == i) = some k) :
    indexOfById cs i = (k : Int) := by
  unfold indexOfById
  rw [h]

/-- Inversion of the identity-recording walk along any location addressing
an existing node, under globally distinct ids. -/
theorem getNodeLocationGo_inverts {α : Type} :
    ∀ (loc : List Int) (n t : TreeNode α),
      (treeIds n).Nodup → nodeAt n loc = some t →
      getNodeLocationGo n loc = loc := by
  intro loc
  induction loc with
  | nil => intro n t _ _; rfl
  | cons i rest ih =>
    intro n t hids hv
    rw [nodeAt] at hv
    by_cases hneg : i < 0
    · rw [if_pos hneg] at hv; cases hv
    · rw [if_neg hneg] at hv
      cases hc : n.children[i.toNat]? with
      | none => rw [hc] at hv; cases hv
      | some c =>
        rw [hc] at hv
        rw [getNodeLocationGo, hc]
        cases n with
        | mk d cs =>
          have hnodup : (treeIdsList cs).Nodup := treeIds_nodup_parts d cs hids
          have hmap : (cs.map (fun x => x.data.id)).Nodup := idsList_nodup_map cs hnodup
          have hfind := findIdx_of_nodup_ids cs i.toNat c hmap hc
          have hcids : (treeIds c).Nodup :=
            idsList_nodup_child cs c (List.getElem?_mem hc) hnodup
          have hv2 : nodeAt c rest = some t := hv
          show indexOfById cs c.data.id :: getNodeLocationGo c rest = i :: rest
          rw [indexOfById_eq cs c.data.id i.toNat hfind]
          have h2 : ((i.toNat : Nat) : Int) = i := by omega
          rw [h2]
          rw [ih c t hcids hv2]

/-- C10: for a location addressing an existing node, the parent-pointer walk
of `getNodeLocation` (rendered over paths, with `indexOf` comparing node
identity) inverts `getNode`, and trivially so for the empty location, where
both sides denote the root; fresh creation ids make all node identities
distinct, which the hypothesis records. -/
theorem getNodeLocation_inverts_getNode {α : Type} (m : Model α) (loc : List Int)
    (target : TreeNode α) (hids : (treeIds m.root).Nodup)
    (hget : Model.getNode m loc = .ok (some target)) :
    getNodeLocationGo m.root loc = loc
    ∧ getNodeLocationGo m.root ([] : List Int) = [] := by
  refine ⟨?_, rfl⟩
  have hv : nodeAt m.root loc = some target :=
    (getTreeNode_ok_some_iff_nodeAt loc m.root target).1 hget
  exact getNodeLocationGo_inverts loc m.root target hids hv

/-- Witness for the location round trip on a concrete two-level tree. -/
theorem getNodeLocation_inverts_getNode_witness :
    getNodeLocationGo sX1.root [0, 0] = [0, 0] :=
  (getNodeLocation_inverts_getNode sX1 [0, 0] (nd 2 1 2 0 0 false false 1 true [])
    (by decide) (by rfl)).1



theorem nodeAt_append {α : Type} :
    ∀ (p q : List Int) (n : TreeNode α),
      nodeAt n (p ++ q) = (nodeAt n p).bind (fun c => nodeAt c q) := by
  intro p
  induction p with
  | nil => intro q n; rfl
  | cons i rest ih =>
    intro q n
    rw [List.cons_append, nodeAt, nodeAt]
    by_cases hneg : i < 0
    · rw [if_pos hneg, if_pos hneg]; rfl
    · rw [if_neg hneg, if_neg hneg]
      cases hc : n.children[i.toNat]? with
      | none => rfl
      | some c => exact ih q c

theorem getElem?_some_lt {β : Type} (l : List β) (i : Nat) (a : β)
    (h : l[i]? = some a) : i < l.length := by
  by_contra h2
  rw [List.getElem?_eq_none (by omega)] at h
  cases h

theorem updateTreeAt_prefix {α : Type} :
    ∀ (loc : List Int) (root n : TreeNode α) (x : TreeNode α) (d : Int) (q : List Int),
      nodeAt root loc = some n →
      nodeAt (updateTreeAt root loc (fun _ => (x, d))).1 (loc ++ q) = nodeAt x q := by
  intro loc
  induction loc with
  | nil =>
    intro root n x d q _
    rw [updateTreeAt]
    rfl
  | cons i rest ih =>
    intro root n x d q hres
    rw [nodeAt] at hres
    by_cases hneg : i < 0
    · rw [if_pos hneg] at hres; cases hres
    · rw [if_neg hneg] at hres
      cases hc : root.children[i.toNat]? with
      | none => rw [hc] at hres; cases hres
      | some c =>
        rw [hc] at hres
        rw [updateTreeAt, hc]
        have hlt : i.toNat < root.children.length := getElem?_some_lt _ _ _ hc
        rw [List.cons_append, nodeAt]
        rw [if_neg hneg]
        have hget : ((root.withChildren (root.children.set i.toNat
            (updateTreeAt c rest (fun _ => (x, d))).1)).addRnc
              (updateTreeAt c rest (fun _ => (x, d))).2).children[i.toNat]?
            = some (updateTreeAt c rest (fun _ => (x, d))).1 := by
          show (root.children.set i.toNat _)[i.toNat]? = _
          exact List.getElem?_set_self hlt
        rw [hget]
        exact ih c n x d q hres

theorem updateTreeAt_outside {α : Type} :
    ∀ (loc : List Int) (root n : TreeNode α) (x : TreeNode α) (d : Int) (q : List Int),
      nodeAt root loc = some n →
      ¬ loc <+: q →
      ccAt (updateTreeAt root loc (fun _ => (x, d))).1 q = ccAt root q := by
  intro loc
  induction loc with
  | nil =>
    intro root n x d q _ hpre
    exact absurd (List.nil_prefix) hpre
  | cons i rest ih =>
    intro root n x d q hres hpre
    rw [nodeAt] at hres
    by_cases hneg : i < 0
    · rw [if_pos hneg] at hres; cases hres
    · rw [if_neg hneg] at hres
      cases hc : root.children[i.toNat]? with
      | none => rw [hc] at hres; cases hres
      | some c =>
        rw [hc] at hres
        rw [updateTreeAt, hc]
        have hlt : i.toNat < root.children.length := getElem?_some_lt _ _ _ hc
        set root2 := ((root.withChildren (root.children.set i.toNat
          (updateTreeAt c rest (fun _ => (x, d))).1)).addRnc
            (updateTreeAt c rest (fun _ => (x, d))).2) with hroot2
        cases q with
        | nil => rfl
        | cons j q2 =>
          rw [ccAt, ccAt, nodeAt, nodeAt]
          by_cases hjneg : j < 0
          · rw [if_pos hjneg, if_pos hjneg]
          · rw [if_neg hjneg, if_neg hjneg]
            by_cases hij : j = i
            · subst hij
              have hpre2 : ¬ rest <+: q2 := by
                intro h2
                exact hpre ((List.prefix_cons_inj j).mpr h2)
              have hget : root2.children[j.toNat]? =
                  some (updateTreeAt c rest (fun _ => (x, d))).1 := by
                show (root.children.set j.toNat _)[j.toNat]? = _
                exact List.getElem?_set_self hlt
              rw [hget, hc]
              exact ih c n x d q2 hres hpre2
            · have hne : j.toNat ≠ i.toNat := by omega
              have hget : root2.children[j.toNat]? = root.children[j.toNat]? := by
                show (root.children.set i.toNat _)[j.toNat]? = _
                exact List.getElem?_set_ne (by omega)
              rw [hget]

theorem getLastD_default_irrel {β : Type} (l : List β) (h : l ≠ []) (d1 d2 : β) :
    l.getLastD d1 = l.getLastD d2 := by
  induction l generalizing d1 d2 with
  | nil => exact absurd rfl h
  | cons a l ih =>
    rw [List.getLastD_cons]
    cases l with
    | nil => rfl
    | cons b t => exact ih (List.cons_ne_nil b t) a a

theorem getLastD_cons_ne {β : Type} (i d : β) (rest : List β) (h : rest ≠ []) :
    (i :: rest).getLastD d = rest.getLastD d := by
  rw [List.getLastD_cons]
  exact getLastD_default_irrel rest h i d

theorem resolver_ok_of_nodeAt {α : Type} :
    ∀ (loc : List Int) (n t : TreeNode α) (li : Int) (rev vis : Bool),
      nodeAt n loc = some t → loc ≠ [] →
      ∃ p li2 rev2 vis2,
        getParentNodeWithListIndex loc n li rev vis = .ok (p, li2, rev2, vis2)
        ∧ nodeAt n loc.dropLast = some p
        ∧ p.children[(loc.getLastD 0).toNat]? = some t
        ∧ 0 ≤ loc.getLastD 0 := by
  intro loc
  induction loc with
  | nil => intro n t li rev vis _ h; exact absurd rfl h
  | cons i rest ih =>
    intro n t li rev vis hv _
    rw [nodeAt] at hv
    by_cases hneg : i < 0
    · rw [if_pos hneg] at hv; cases hv
    · rw [if_neg hneg] at hv
      cases hc : n.children[i.toNat]? with
      | none => rw [hc] at hv; cases hv
      | some c =>
        rw [hc] at hv
        have hlt : i.toNat < n.children.length := getElem?_some_lt _ _ _ hc
        have hb : ¬ (i < 0 ∨ (n.children.length : Int) < i) := by
          push_neg
          constructor
          · omega
          · omega
        rw [getParentNodeWithListIndex]
        rw [if_neg hb]
        cases hrest : rest with
        | nil =>
          simp only [List.isEmpty_nil, if_true]
          refine ⟨n, _, _, _, rfl, ?_, ?_, ?_⟩
          · rfl
          · have ht : c = t := by rw [hrest] at hv; exact Option.some_injective _ hv
            subst ht
            exact hc
          · show (0 : Int) ≤ i
            omega
        | cons r rs =>
          rw [← hrest]
          have hrne : rest ≠ [] := by rw [hrest]; exact List.cons_ne_nil r rs
          simp only [List.isEmpty_iff, if_neg hrne]
          rw [hc]
          rw [hrest] at hv
          rw [← hrest] at hv
          obtain ⟨p, li2, rev2, vis2, hres, hdrop, hchild, hnn⟩ :=
            ih c t (li + rncSum (List.take i.toNat n.children) + 1)
              (rev && !n.data.collapsed) (vis && n.data.visible) hv hrne
          refine ⟨p, li2, rev2, vis2, hres, ?_, ?_, ?_⟩
          · have hdl : (i :: rest).dropLast = i :: rest.dropLast := by
              rw [hrest]; rfl
            rw [hdl, nodeAt, if_neg hneg, hc]
            exact hdrop
          · rw [getLastD_cons_ne i 0 rest hrne]
            exact hchild
          · rw [getLastD_cons_ne i 0 rest hrne]
            exact hnn

theorem getTreeNodeWithListIndex_ok_of_nodeAt {α : Type} (root : TreeNode α)
    (loc : List Int) (t : TreeNode α) (hv : nodeAt root loc = some t) (hl : loc ≠ []) :
    ∃ li rev vis, getTreeNodeWithListIndex root loc = .ok (t, li, rev, vis) := by
  obtain ⟨p, li2, rev2, vis2, hres, hdrop, hchild, hnn⟩ :=
    resolver_ok_of_nodeAt loc root t 0 true true hv hl
  have hlt : (loc.getLastD 0).toNat < p.children.length := getElem?_some_lt _ _ _ hchild
  refine ⟨li2, rev2, vis2 && t.data.visible, ?_⟩
  rw [getTreeNodeWithListIndex, if_neg (by simp [hl]), hres]
  show (match (p, li2, rev2, vis2) with
    | (parentNode, listIndex, revealed, visible) =>
      let index := loc.getLastD 0
      if index < 0 ∨ (parentNode.children.length : Int) < index then
        (.error invalidLocationMsg : Except String (TreeNode α × Int × Bool × Bool))
      else
        match parentNode.children[index.toNat]? with
        | some node => .ok (node, listIndex, revealed, visible && node.data.visible)
        | none => .error typeErrorMsg) = _
  simp only
  rw [if_neg (by push_neg; omega), hchild]

theorem ccAt_nil {α : Type} (n : TreeNode α) :
    ccAt n [] = some (n.data.collapsible, n.data.collapsed) := by
  cases n; rfl

theorem collapsedAt_nil {α : Type} (n : TreeNode α) :
    collapsedAtNode n [] = some n.data.collapsed := by
  cases n; rfl

theorem ccAt_mk_cons {α : Type} (d d' : NodeData α) (cs : List (TreeNode α))
    (i : Int) (rest : List Int) :
    ccAt (TreeNode.mk d cs) (i :: rest) = ccAt (TreeNode.mk d' cs) (i :: rest) := by
  simp only [ccAt, nodeAt, TreeNode.children]

theorem collapsedAt_mk_cons {α : Type} (d : NodeData α) (cs : List (TreeNode α))
    (i : Int) (rest : List Int) :
    collapsedAtNode (TreeNode.mk d cs) (i :: rest) =
      if i < 0 then none else lookC cs i.toNat rest := by
  simp only [collapsedAtNode, nodeAt, lookC, TreeNode.children]
  by_cases h : i < 0
  · simp [h]
  · simp only [h, if_false]
    cases cs[i.toNat]? with
    | none => rfl
    | some c => rfl

theorem collapsedAt_congr {α : Type} (n n' : TreeNode α) (q : List Int)
    (h : ccAt n q = ccAt n' q) : collapsedAtNode n q = collapsedAtNode n' q := by
  rw [ccAt, ccAt] at h
  rw [collapsedAtNode, collapsedAtNode]
  cases h1 : nodeAt n q <;> cases h2 : nodeAt n' q <;> rw [h1, h2] at h <;> simp_all

theorem ccAt_append {α : Type} (n x : TreeNode α) (p q : List Int)
    (h : nodeAt n p = some x) : ccAt n (p ++ q) = ccAt x q := by
  rw [ccAt, ccAt, nodeAt_append, h]
  rfl

theorem lookC_cons_zero {α : Type} (a : TreeNode α) (cs : List (TreeNode α)) (q : List Int) :
    lookC (a :: cs) 0 q = collapsedAtNode a q := by
  rw [lookC, List.getElem?_cons_zero]

theorem lookC_cons_succ {α : Type} (a : TreeNode α) (cs : List (TreeNode α)) (k : Nat)
    (q : List Int) : lookC (a :: cs) (k + 1) q = lookC cs k q := by
  rw [lookC, lookC, List.getElem?_cons_succ]

theorem exists_lookC_cons_iff {α : Type} (a b : TreeNode α) (cs' cs : List (TreeNode α)) :
    (∃ (k : Nat) (q : List Int), lookC (a :: cs') k q ≠ lookC (b :: cs) k q) ↔
      ((∃ q, collapsedAtNode a q ≠ collapsedAtNode b q)
        ∨ ∃ (k : Nat) (q : List Int), lookC cs' k q ≠ lookC cs k q) := by
  constructor
  · rintro ⟨k, q, h⟩
    cases k with
    | zero =>
      rw [lookC_cons_zero, lookC_cons_zero] at h
      exact Or.inl ⟨q, h⟩
    | succ k =>
      rw [lookC_cons_succ, lookC_cons_succ] at h
      exact Or.inr ⟨k, q, h⟩
  · rintro (⟨q, h⟩ | ⟨k, q, h⟩)
    · exact ⟨0, q, by rw [lookC_cons_zero, lookC_cons_zero]; exact h⟩
    · exact ⟨k + 1, q, by rw [lookC_cons_succ, lookC_cons_succ]; exact h⟩

theorem exists_collapsedAt_mk_iff {α : Type} (d' d : NodeData α)
    (cs' cs : List (TreeNode α)) :
    (∃ q, collapsedAtNode (TreeNode.mk d' cs') q ≠ collapsedAtNode (TreeNode.mk d cs) q)
      ↔ (d'.collapsed ≠ d.collapsed
          ∨ ∃ (k : Nat) (q : List Int), lookC cs' k q ≠ lookC cs k q) := by
  constructor
  · rintro ⟨q, h⟩
    match q with
    | [] =>
      simp only [collapsedAt_nil, TreeNode.data] at h
      exact Or.inl (fun he => h (by rw [he]))
    | i :: rest =>
      rw [collapsedAt_mk_cons, collapsedAt_mk_cons] at h
      by_cases hi : i < 0
      · rw [if_pos hi, if_pos hi] at h
        exact absurd rfl h
      · rw [if_neg hi, if_neg hi] at h
        exact Or.inr ⟨i.toNat, rest, h⟩
  · rintro (h | ⟨k, q, h⟩)
    · refine ⟨[], ?_⟩
      simp only [collapsedAt_nil, TreeNode.data]
      intro he
      exact h (Option.some.inj he)
    · refine ⟨(k : Int) :: q, ?_⟩
      rw [collapsedAt_mk_cons, collapsedAt_mk_cons]
      have hk : ¬ ((k : Int) < 0) := by omega
      rw [if_neg hk, if_neg hk, Int.toNat_natCast]
      exact h

theorem setNodeCollapsed_head {α : Type} (n : TreeNode α) (c rec : Bool) :
    (setNodeCollapsed n c rec).1.data.collapsible = n.data.collapsible
    ∧ (setNodeCollapsed n c rec).1.data.collapsed =
        (if n.data.collapsible then c else n.data.collapsed) := by
  cases n with
  | mk d cs =>
    rw [setNodeCollapsed]
    cases rec <;> by_cases hb : d.collapsible <;>
      simp [hb, TreeNode.data]

theorem setNodeCollapsed_result {α : Type} (n : TreeNode α) (c : Bool) :
    (setNodeCollapsed n c false).2 = (n.data.collapsible && n.data.collapsed != c) := by
  cases n with
  | mk d cs => rw [setNodeCollapsed]; rfl

theorem setNodeCollapsed_false_tail {α : Type} (n : TreeNode α) (c : Bool)
    (i : Int) (rest : List Int) :
    ccAt (setNodeCollapsed n c false).1 (i :: rest) = ccAt n (i :: rest) := by
  cases n with
  | mk d cs =>
    rw [setNodeCollapsed]
    exact ccAt_mk_cons _ _ _ _ _

mutual

theorem setNodeCollapsed_iff {α : Type} :
    ∀ (n : TreeNode α) (c rec : Bool),
      ((setNodeCollapsed n c rec).2 = true ↔
        ∃ q, collapsedAtNode (setNodeCollapsed n c rec).1 q ≠ collapsedAtNode n q)
  | .mk d cs, c, rec => by
    have hlist := setNodeCollapsedList_iff cs c
    rw [setNodeCollapsed]
    cases rec with
    | false =>
      simp only [Bool.false_eq_true, if_false]
      rw [exists_collapsedAt_mk_iff]
      by_cases hb : d.collapsible = true
      · rw [if_pos hb, hb]
        simp only [Bool.true_and, bne_iff_ne, ne_eq, decide_eq_true_eq]
        constructor
        · intro h
          exact Or.inl (by simpa using fun he => h he.symm)
        · rintro (h | ⟨k, q, hkq⟩)
          · exact fun he => h he.symm
          · exact absurd trivial hkq
      · rw [if_neg hb]
        have hb2 : d.collapsible = false := by
          cases hcb : d.collapsible
          · rfl
          · exact absurd hcb hb
        rw [hb2]
        simp only [Bool.false_and, Bool.false_eq_true, false_iff, not_or, not_exists]
        exact ⟨fun h => h rfl, fun k q hkq => hkq rfl⟩
    | true =>
      simp only [if_true]
      rw [exists_collapsedAt_mk_iff, Bool.or_eq_true]
      constructor
      · rintro (h | h)
        · exact Or.inr (hlist.mp h)
        · refine Or.inl ?_
          rw [Bool.and_eq_true] at h
          rw [if_pos h.1]
          simp only [bne_iff_ne, ne_eq, decide_eq_true_eq] at h
          simpa using fun he => h.2 he.symm
      · rintro (h | h)
        · refine Or.inr ?_
          by_cases hb : d.collapsible = true
          · rw [if_pos hb] at h
            rw [hb]
            simp only at h
            simp only [Bool.true_and, bne_iff_ne, ne_eq, decide_eq_true_eq]
            exact fun he => h (by rw [he])
          · rw [if_neg hb] at h
            exact absurd rfl h
        · exact Or.inl (hlist.mpr h)

theorem setNodeCollapsedList_iff {α : Type} :
    ∀ (cs : List (TreeNode α)) (c : Bool),
      ((setNodeCollapsedList cs c).2 = true ↔
        ∃ (k : Nat) (q : List Int),
          lookC (setNodeCollapsedList cs c).1 k q ≠ lookC cs k q)
  | [], c => by
    rw [setNodeCollapsedList]
    simp only [Bool.false_eq_true, false_iff, not_exists]
    intro k q
    simp [lookC]
  | x :: cs, c => by
    have hx := setNodeCollapsed_iff x c true
    have hcs := setNodeCollapsedList_iff cs c
    rw [setNodeCollapsedList]
    simp only [Bool.or_eq_true]
    rw [exists_lookC_cons_iff]
    constructor
    · rintro (h | h)
      · exact Or.inl (hx.mp h)
      · exact Or.inr (hcs.mp h)
    · rintro (h | h)
      · exact Or.inl (hx.mpr h)
      · exact Or.inr (hcs.mpr h)

end



theorem lookP_cons_zero {α : Type} (a : TreeNode α) (cs : List (TreeNode α)) (q : List Int) :
    lookP (a :: cs) 0 q = ccAt a q := by
  rw [lookP, List.getElem?_cons_zero]

theorem lookP_cons_succ {α : Type} (a : TreeNode α) (cs : List (TreeNode α)) (k : Nat)
    (q : List Int) : lookP (a :: cs) (k + 1) q = lookP cs k q := by
  rw [lookP, lookP, List.getElem?_cons_succ]

theorem ccAt_mk_cons_lookP {α : Type} (d : NodeData α) (cs : List (TreeNode α))
    (i : Int) (rest : List Int) :
    ccAt (TreeNode.mk d cs) (i :: rest) =
      if i < 0 then none else lookP cs i.toNat rest := by
  simp only [ccAt, nodeAt, lookP, TreeNode.children]
  by_cases h : i < 0
  · simp [h]
  · simp only [h, if_false]
    cases cs[i.toNat]? with
    | none => rfl
    | some c => rfl

mutual

theorem updateCollapseRec_ccAt {α : Type} :
    ∀ (n : TreeNode α) (q : List Int),
      ccAt (updateNodeAfterCollapseChangeRec n).1 q = ccAt n q
  | .mk d cs, q => by
    rw [updateNodeAfterCollapseChangeRec]
    cases hv : d.visible with
    | false => rfl
    | true =>
      simp only [Bool.not_true, Bool.false_eq_true, if_false]
      cases hc : d.collapsed with
      | true =>
        simp only [Bool.not_true, Bool.false_eq_true, if_false]
        match q with
        | [] => simp [ccAt_nil, TreeNode.data, hc]
        | i :: rest => exact ccAt_mk_cons _ _ _ _ _
      | false =>
        simp only [Bool.not_false, if_true]
        have hlist := fun k => updateCollapseList_ccAt cs k
        rcases hul : updateListAfterCollapseChange cs with ⟨cs2, frag, contrib⟩
        simp only
        match q with
        | [] => simp [ccAt_nil, TreeNode.data, hc]
        | i :: rest =>
          rw [ccAt_mk_cons_lookP, ccAt_mk_cons_lookP]
          by_cases hi : i < 0
          · rw [if_pos hi, if_pos hi]
          · rw [if_neg hi, if_neg hi]
            have := hlist i.toNat rest
            rw [hul] at this
            exact this

theorem updateCollapseList_ccAt {α : Type} :
    ∀ (cs : List (TreeNode α)) (k : Nat) (q : List Int),
      lookP (updateListAfterCollapseChange cs).1 k q = lookP cs k q
  | [], k, q => by rw [updateListAfterCollapseChange]
  | c :: cs, 0, q => by
    have hc := updateCollapseRec_ccAt c q
    rw [updateListAfterCollapseChange]
    rcases hu : updateNodeAfterCollapseChangeRec c with ⟨c2, f1, k1⟩
    rcases hul : updateListAfterCollapseChange cs with ⟨cs2, f2, k2⟩
    simp only
    rw [lookP_cons_zero, lookP_cons_zero]
    rw [hu] at hc
    exact hc
  | c :: cs, k + 1, q => by
    have hcs := updateCollapseList_ccAt cs k q
    rw [updateListAfterCollapseChange]
    rcases hu : updateNodeAfterCollapseChangeRec c with ⟨c2, f1, k1⟩
    rcases hul : updateListAfterCollapseChange cs with ⟨cs2, f2, k2⟩
    simp only
    rw [lookP_cons_succ, lookP_cons_succ]
    rw [hul] at hcs
    exact hcs

end

theorem setCollapsedStep_off {α : Type} (m : Model α) (loc : List Int) (n : TreeNode α)
    (li : Int) (rev vis : Bool) (c rec : Bool)
    (hae : m.autoExpandSingleChildren = false)
    (hres : getTreeNodeWithListIndex m.root loc = .ok (n, li, rev, vis)) :
    setCollapsedStep m loc c rec =
      .ok (setListNodeCollapsedModel m loc n li rev c rec, none) := by
  rw [setCollapsedStep, hres]
  show (match (n, li, rev, vis) with
    | (node, listIndex, revealed, _) =>
      let s := setListNodeCollapsedModel m loc node listIndex revealed c rec
      if m.autoExpandSingleChildren && !c && !rec then
        pure (s, onlyVisibleScan node.children 0 none)
      else
        pure (s, none)) =
    (.ok (setListNodeCollapsedModel m loc n li rev c rec, none)
      : Except String ((Model α × Bool) × Option Nat))
  simp only [hae, Bool.false_and, Bool.false_eq_true, if_false]
  rfl

theorem setCollapsedGo_of_step {α : Type} (m : Model α) (loc : List Int) (c rec : Bool)
    (fuel : Nat) (s : Model α × Bool)
    (hstep : setCollapsedStep m loc c rec = .ok (s, none)) :
    setCollapsedGo m loc c rec fuel = .ok s := by
  cases fuel with
  | zero => rw [setCollapsedGo, hstep]; rfl
  | succ k => rw [setCollapsedGo, hstep]; rfl

theorem setListNodeCollapsedModel_shape {α : Type} (m : Model α) (loc : List Int)
    (n : TreeNode α) (li : Int) (rev : Bool) (c rec : Bool) :
    ∃ (X : TreeNode α) (δ : Int),
      setListNodeCollapsedModel m loc n li rev c rec =
        ({ m with
            root := (updateTreeAt m.root loc (fun _ => (X, δ))).1,
            list := (setListNodeCollapsedModel m loc n li rev c rec).1.list },
          (setNodeCollapsed n c rec).2)
      ∧ (∀ q, ccAt X q = ccAt (setNodeCollapsed n c rec).1 q) := by
  rw [setListNodeCollapsedModel]
  by_cases hb : (!rev || !(setNodeCollapsed n c rec).1.data.visible) = true
  · refine ⟨(setNodeCollapsed n c rec).1, 0, ?_, fun q => rfl⟩
    rw [if_pos hb]
  · rw [if_neg hb]
    rcases hu : updateNodeAfterCollapseChangeRec (setNodeCollapsed n c rec).1 with
      ⟨node2, toInsert, k⟩
    refine ⟨node2, (toInsert.length : Int) -
      (setNodeCollapsed n c rec).1.data.renderNodeCount, ?_, ?_⟩
    · simp only
    · intro q
      have := updateCollapseRec_ccAt (setNodeCollapsed n c rec).1 q
      rw [hu] at this
      exact this

theorem setCollapsedGo_spec {α : Type} (m : Model α) (loc : List Int) (n : TreeNode α)
    (c rec : Bool) (fuel : Nat)
    (hae : m.autoExpandSingleChildren = false)
    (hl : loc ≠ [])
    (hv : nodeAt m.root loc = some n) :
    ∃ (m1 : Model α) (nodeX : TreeNode α),
      setCollapsedGo m loc c rec fuel = .ok (m1, (setNodeCollapsed n c rec).2)
      ∧ m1.autoExpandSingleChildren = m.autoExpandSingleChildren
      ∧ nodeAt m1.root loc = some nodeX
      ∧ (∀ q, ccAt nodeX q = ccAt (setNodeCollapsed n c rec).1 q)
      ∧ (∀ q, ¬ loc <+: q → ccAt m1.root q = ccAt m.root q) := by
  obtain ⟨li, rev, vis, hres⟩ := getTreeNodeWithListIndex_ok_of_nodeAt m.root loc n hv hl
  have hstep := setCollapsedStep_off m loc n li rev vis c rec hae hres
  obtain ⟨X, δ, hshape, hX⟩ := setListNodeCollapsedModel_shape m loc n li rev c rec
  have hgo := setCollapsedGo_of_step m loc c rec fuel _ hstep
  rw [hshape] at hgo
  refine ⟨_, X, hgo, rfl, ?_, hX, ?_⟩
  · have := updateTreeAt_prefix loc m.root n X δ [] hv
    simpa using this
  · intro q hq
    exact updateTreeAt_outside loc m.root n X δ q hv hq

theorem modelSetCollapsed_eq_go {α : Type} (m : Model α) (loc : List Int)
    (n : TreeNode α) (c rec : Bool) (hv : nodeAt m.root loc = some n) :
    Model.setCollapsed m loc (some c) (some rec) =
      setCollapsedGo m loc c rec (treeSize m.root) := by
  have hg : getTreeNode loc (some m.root) = .ok (some n) :=
    (getTreeNode_ok_some_iff_nodeAt loc m.root n).mpr hv
  rw [Model.setCollapsed, hg]
  rfl

/-- C7 amended: with `autoExpandSingleChildren` off (the divergence the
counterexample isolates), `setCollapsed` at a resolvable non-empty location
returns true exactly when some node's collapse flag actually changed; a
second `setCollapsed(loc, true)` right after a first call with target state
true is a no-op returning false; on a non-collapsible node the call (with
`recursive = false`) is a no-op returning false that leaves every collapse
flag in the tree unchanged; and on a collapsible expanded node,
`setCollapsed(loc, true)` reports true. -/
theorem setCollapsed_change_flag_spec {α : Type} (m : Model α) (loc : List Int)
    (n : TreeNode α) (c rec : Bool)
    (hae : m.autoExpandSingleChildren = false)
    (hl : loc ≠ [])
    (hv : nodeAt m.root loc = some n) :
    ∃ (m1 : Model α) (r1 : Bool),
      Model.setCollapsed m loc (some c) (some rec) = .ok (m1, r1)
      ∧ (r1 = true ↔ ∃ q, collapsedAtNode m1.root q ≠ collapsedAtNode m.root q)
      ∧ (c = true → ∃ m2, Model.setCollapsed m1 loc (some true) (some false) = .ok (m2, false))
      ∧ (rec = false → n.data.collapsible = false →
          r1 = false ∧ ∀ q, collapsedAtNode m1.root q = collapsedAtNode m.root q)
      ∧ (rec = false → n.data.collapsible = true → n.data.collapsed = false → c = true →
          r1 = true) := by
  obtain ⟨m1, nodeX, hgo, haep, hnx, hccX, hframe⟩ :=
    setCollapsedGo_spec m loc n c rec (treeSize m.root) hae hl hv
  have key : ∀ q', collapsedAtNode m1.root (loc ++ q') =
      collapsedAtNode (setNodeCollapsed n c rec).1 q' := by
    intro q'
    have h1 : collapsedAtNode m1.root (loc ++ q') = collapsedAtNode nodeX q' := by
      rw [collapsedAtNode, collapsedAtNode, nodeAt_append, hnx]
      rfl
    rw [h1]
    exact collapsedAt_congr _ _ _ (hccX q')
  have key0 : ∀ q', collapsedAtNode m.root (loc ++ q') = collapsedAtNode n q' := by
    intro q'
    rw [collapsedAtNode, collapsedAtNode, nodeAt_append, hv]
    rfl
  have hiff : (setNodeCollapsed n c rec).2 = true ↔
      ∃ q, collapsedAtNode m1.root q ≠ collapsedAtNode m.root q := by
    constructor
    · intro hr
      obtain ⟨q', hq'⟩ := (setNodeCollapsed_iff n c rec).mp hr
      exact ⟨loc ++ q', by rw [key, key0]; exact hq'⟩
    · rintro ⟨q, hq⟩
      by_cases hp : loc <+: q
      · obtain ⟨t, rfl⟩ := hp
        rw [key, key0] at hq
        exact (setNodeCollapsed_iff n c rec).mpr ⟨t, hq⟩
      · exact absurd (collapsedAt_congr _ _ _ (hframe q hp)) hq
  have hX0 : nodeX.data.collapsible = n.data.collapsible
      ∧ nodeX.data.collapsed = (if n.data.collapsible then c else n.data.collapsed) := by
    have h0 := hccX []
    rw [ccAt_nil, ccAt_nil] at h0
    have h1 := Option.some.inj h0
    have h2 := (setNodeCollapsed_head n c rec).1
    have h3 := (setNodeCollapsed_head n c rec).2
    constructor
    · rw [show nodeX.data.collapsible = (nodeX.data.collapsible,
          nodeX.data.collapsed).1 from rfl, h1, h2]
    · rw [show nodeX.data.collapsed = (nodeX.data.collapsible,
          nodeX.data.collapsed).2 from rfl, h1, h3]
  refine ⟨m1, (setNodeCollapsed n c rec).2,
    by rw [modelSetCollapsed_eq_go m loc n c rec hv]; exact hgo, hiff, ?_, ?_, ?_⟩
  · intro hc
    have hae1 : m1.autoExpandSingleChildren = false := by rw [haep, hae]
    obtain ⟨m2, nodeY, hgo2, _, _, _, _⟩ :=
      setCollapsedGo_spec m1 loc nodeX true false (treeSize m1.root) hae1 hl hnx
    have hres2 : (setNodeCollapsed nodeX true false).2 = false := by
      rw [setNodeCollapsed_result, hX0.1, hX0.2]
      subst hc
      cases hcb : n.data.collapsible <;> simp [hcb]
    rw [hres2] at hgo2
    exact ⟨m2, by rw [modelSetCollapsed_eq_go m1 loc nodeX true false hnx]; exact hgo2⟩
  · intro hrec hcb
    subst hrec
    have hr : (setNodeCollapsed n c false).2 = false := by
      rw [setNodeCollapsed_result, hcb]
      rfl
    refine ⟨hr, ?_⟩
    intro q
    have hne : ¬ ∃ q, collapsedAtNode m1.root q ≠ collapsedAtNode m.root q := by
      intro hex
      have := hiff.mpr hex
      rw [hr] at this
      exact Bool.false_ne_true this
    have := not_exists.mp hne q
    exact not_ne_iff.mp this
  · intro hrec hcb hcc hc
    subst hrec
    subst hc
    rw [setNodeCollapsed_result, hcb, hcc]
    rfl

theorem setCollapsed_change_flag_spec_witness :
    (wModel.autoExpandSingleChildren = false ∧ ([0] : List Int) ≠ []
      ∧ nodeAt wModel.root [0] = some wChild)
    ∧ ∃ (m1 : Model Nat) (r1 : Bool),
      Model.setCollapsed wModel [0] (some true) (some false) = .ok (m1, r1)
      ∧ (r1 = true ↔ ∃ q, collapsedAtNode m1.root q ≠ collapsedAtNode wModel.root q)
      ∧ (true = true → ∃ m2, Model.setCollapsed m1 [0] (some true) (some false) = .ok (m2, false))
      ∧ (false = false → wChild.data.collapsible = false →
          r1 = false ∧ ∀ q, collapsedAtNode m1.root q = collapsedAtNode wModel.root q)
      ∧ (false = false → wChild.data.collapsible = true → wChild.data.collapsed = false →
          true = true → r1 = true) :=
  ⟨⟨rfl, by decide, rfl⟩,
    setCollapsed_change_flag_spec wModel [0] wChild true false rfl (by decide) rfl⟩

theorem ccAt_some_of_nodeAt {α : Type} (n x : TreeNode α) (q : List Int)
    (h : nodeAt n q = some x) :
    ccAt n q = some (x.data.collapsible, x.data.collapsed) := by
  rw [ccAt, h]
  rfl

theorem setCollapsedGo_false_frame {α : Type} (m : Model α) (loc : List Int)
    (n : TreeNode α) (c : Bool) (fuel : Nat)
    (hae : m.autoExpandSingleChildren = false)
    (hl : loc ≠ [])
    (hv : nodeAt m.root loc = some n) :
    ∃ (m1 : Model α) (r1 : Bool),
      setCollapsedGo m loc c false fuel = .ok (m1, r1)
      ∧ m1.autoExpandSingleChildren = m.autoExpandSingleChildren
      ∧ ccAt m1.root loc =
          some (n.data.collapsible, if n.data.collapsible then c else n.data.collapsed)
      ∧ (∀ q, q ≠ loc → ccAt m1.root q = ccAt m.root q) := by
  obtain ⟨m1, nodeX, hgo, haep, hnx, hccX, hframe⟩ :=
    setCollapsedGo_spec m loc n c false fuel hae hl hv
  refine ⟨m1, _, hgo, haep, ?_, ?_⟩
  · rw [ccAt_some_of_nodeAt m1.root nodeX loc hnx]
    have h0 := hccX []
    rw [ccAt_nil, ccAt_nil] at h0
    rw [h0, (setNodeCollapsed_head n c false).1, (setNodeCollapsed_head n c false).2]
  · intro q hq
    by_cases hp : loc <+: q
    · obtain ⟨t, rfl⟩ := hp
      match t with
      | [] => exact absurd (List.append_nil loc) hq
      | i :: rest =>
        rw [ccAt_append m1.root nodeX loc (i :: rest) hnx,
          ccAt_append m.root n loc (i :: rest) hv, hccX (i :: rest)]
        exact setNodeCollapsed_false_tail n c i rest
    · exact hframe q hp

theorem nodeAt_take_isSome {α : Type} (root t : TreeNode α) (loc : List Int)
    (hv : nodeAt root loc = some t) (j : Nat) :
    (nodeAt root (loc.take j)).isSome = true := by
  have hsplit : loc = loc.take j ++ loc.drop j := (List.take_append_drop j loc).symm
  rw [hsplit, nodeAt_append] at hv
  cases hg : nodeAt root (loc.take j) with
  | none => rw [hg] at hv; simp at hv
  | some a => rfl

theorem expandToGo_succ_step {α : Type} (m : Model α) (loc : List Int) (k : Nat)
    (a : TreeNode α) (hget : getTreeNode (loc.take k) (some m.root) = .ok (some a)) :
    expandToGo m loc (k + 1) =
      (if a.data.collapsed then do
          let r ← setCollapsedGo m (loc.take k) false false (treeSize m.root)
          expandToGo r.1 loc k
        else expandToGo m loc k) := by
  rw [expandToGo, hget]
  rfl

theorem isSome_of_ccAt_eq {α : Type} (n n' : TreeNode α) (q : List Int)
    (h : ccAt n q = ccAt n' q) (h2 : (nodeAt n' q).isSome = true) :
    (nodeAt n q).isSome = true := by
  rw [ccAt, ccAt] at h
  cases hg : nodeAt n q with
  | some a => rfl
  | none =>
    rw [hg] at h
    cases hg2 : nodeAt n' q with
    | none => rw [hg2] at h2; simp at h2
    | some b => rw [hg2] at h; simp at h

theorem take_ne_take_of_len {α : Type} (l : List α) (j j' : Nat)
    (hj : j ≤ l.length) (hj' : j' ≤ l.length) (hne : j ≠ j') :
    l.take j ≠ l.take j' := by
  intro h
  have h1 : (l.take j).length = j := by rw [List.length_take]; omega
  have h2 : (l.take j').length = j' := by rw [List.length_take]; omega
  rw [h, h2] at h1
  exact hne h1.symm

theorem expandToGo_spec {α : Type} (loc : List Int) :
    ∀ (k : Nat) (m : Model α),
      m.autoExpandSingleChildren = false →
      m.root.data.collapsed = false →
      k ≤ loc.length →
      (∀ j, j ≤ k → (nodeAt m.root (loc.take j)).isSome = true) →
      ∃ m1, expandToGo m loc k = .ok m1
        ∧ (∀ j a, 1 ≤ j → j < k → nodeAt m1.root (loc.take j) = some a →
            a.data.collapsible = true → a.data.collapsed = false)
        ∧ (∀ q, (∀ j, 1 ≤ j → j < k → q ≠ loc.take j) → ccAt m1.root q = ccAt m.root q) := by
  intro k
  induction k with
  | zero =>
    intro m hae hrc hk hex
    refine ⟨m, rfl, ?_, fun q _ => rfl⟩
    intro j a h1 h2
    exact absurd h2 (by omega)
  | succ k ih =>
    intro m hae hrc hk hex
    obtain ⟨a, ha⟩ := Option.isSome_iff_exists.mp (hex k (by omega))
    have hget : getTreeNode (loc.take k) (some m.root) = .ok (some a) :=
      (getTreeNode_ok_some_iff_nodeAt _ _ _).mpr ha
    rw [expandToGo_succ_step m loc k a hget]
    cases hac : a.data.collapsed with
    | false =>
      rw [if_neg Bool.false_ne_true]
      obtain ⟨m1, hrec, hconj1, hconj2⟩ :=
        ih m hae hrc (by omega) (fun j hj => hex j (by omega))
      refine ⟨m1, hrec, ?_, ?_⟩
      · intro j b h1 h2 hb hcb
        by_cases hjk : j < k
        · exact hconj1 j b h1 hjk hb hcb
        · have hjeq : j = k := by omega
          subst hjeq
          have hcc : ccAt m1.root (loc.take j) = ccAt m.root (loc.take j) := by
            apply hconj2
            intro j' h1' h2'
            exact take_ne_take_of_len loc j j' (by omega) (by omega) (by omega)
          rw [ccAt_some_of_nodeAt m1.root b _ hb, ccAt_some_of_nodeAt m.root a _ ha] at hcc
          have hp := Option.some.inj hcc
          have hsnd : b.data.collapsed = a.data.collapsed := congrArg Prod.snd hp
          rw [hsnd]
          exact hac
      · intro q hq
        apply hconj2
        intro j h1 h2
        exact hq j h1 (by omega)
    | true =>
      rw [if_pos rfl]
      have hk1 : 1 ≤ k := by
        by_contra h0
        have hk0 : k = 0 := by omega
        subst hk0
        rw [List.take_zero] at ha
        have haroot : a = m.root := (Option.some.inj ha).symm
        rw [haroot, hrc] at hac
        exact Bool.false_ne_true hac
      have hne : loc.take k ≠ [] := by
        intro h0
        have hlen : (loc.take k).length = k := by rw [List.length_take]; omega
        rw [h0] at hlen
        simp at hlen
        omega
      obtain ⟨m2, r1, hgo, haep2, hcc2, hframe2⟩ :=
        setCollapsedGo_false_frame m (loc.take k) a false (treeSize m.root) hae hne ha
      rw [hgo]
      have hae2 : m2.autoExpandSingleChildren = false := by rw [haep2, hae]
      have hrc2 : m2.root.data.collapsed = false := by
        have hfr : ccAt m2.root [] = ccAt m.root [] := hframe2 [] (Ne.symm hne)
        rw [ccAt_nil, ccAt_nil] at hfr
        have hp := Option.some.inj hfr
        have hsnd : m2.root.data.collapsed = m.root.data.collapsed := congrArg Prod.snd hp
        rw [hsnd]
        exact hrc
      have hex2 : ∀ j, j ≤ k → (nodeAt m2.root (loc.take j)).isSome = true := by
        intro j hj
        by_cases hjk : j = k
        · subst hjk
          rw [ccAt] at hcc2
          cases hg : nodeAt m2.root (loc.take j) with
          | some b => rfl
          | none => rw [hg] at hcc2; simp at hcc2
        · have hne' : loc.take j ≠ loc.take k :=
            take_ne_take_of_len loc j k (by omega) (by omega) hjk
          exact isSome_of_ccAt_eq m2.root m.root (loc.take j) (hframe2 _ hne')
            (hex j (by omega))
      obtain ⟨m1, hrec, hconj1, hconj2⟩ := ih m2 hae2 hrc2 (by omega) hex2
      refine ⟨m1, ?_, ?_, ?_⟩
      · show expandToGo m2 loc k = Except.ok m1
        exact hrec
      · intro j b h1 h2 hb hcb
        by_cases hjk : j < k
        · exact hconj1 j b h1 hjk hb hcb
        · have hjeq : j = k := by omega
          subst hjeq
          have hcc : ccAt m1.root (loc.take j) = ccAt m2.root (loc.take j) := by
            apply hconj2
            intro j' h1' h2'
            exact take_ne_take_of_len loc j j' (by omega) (by omega) (by omega)
          rw [ccAt_some_of_nodeAt m1.root b _ hb, hcc2] at hcc
          have hp := Option.some.inj hcc
          have hcb2 : b.data.collapsible = a.data.collapsible := congrArg Prod.fst hp
          have hcc3 : b.data.collapsed =
              (if a.data.collapsible then false else a.data.collapsed) :=
            congrArg Prod.snd hp
          rw [hcb] at hcb2
          rw [hcc3, if_pos hcb2.symm]
      · intro q hq
        have h1 : ccAt m1.root q = ccAt m2.root q :=
          hconj2 q (fun j hj1 hj2 => hq j hj1 (by omega))
        have h2 : ccAt m2.root q = ccAt m.root q := hframe2 q (hq k hk1 (by omega))
        rw [h1, h2]

/-- C9 amended: with `autoExpandSingleChildren` off (the divergence the
counterexample isolates) and a never-collapsed synthetic root, `expandTo` on
a valid location succeeds, leaves every collapsible proper ancestor of the
addressed node expanded, keeps the collapsible/collapsed state of every
location off the proper-ancestor chain (in particular of every sibling
subtree) unchanged, does not touch the addressed node itself, and keeps the
root expanded. -/
theorem expandTo_expands_ancestors {α : Type} (m : Model α) (loc : List Int)
    (tgt : TreeNode α)
    (hae : m.autoExpandSingleChildren = false)
    (hrc : m.root.data.collapsed = false)
    (hv : nodeAt m.root loc = some tgt) :
    ∃ m1, Model.expandTo m loc = .ok m1
      ∧ (∀ j a, 1 ≤ j → j < loc.length → nodeAt m1.root (loc.take j) = some a →
          a.data.collapsible = true → a.data.collapsed = false)
      ∧ (∀ q, (∀ j, 1 ≤ j → j < loc.length → q ≠ loc.take j) →
          ccAt m1.root q = ccAt m.root q)
      ∧ ccAt m1.root loc = ccAt m.root loc
      ∧ m1.root.data.collapsed = false := by
  have hget : getTreeNode loc (some m.root) = .ok (some tgt) :=
    (getTreeNode_ok_some_iff_nodeAt _ _ _).mpr hv
  have hred : Model.expandTo m loc = expandToGo m loc loc.length := by
    rw [Model.expandTo, hget]
    rfl
  obtain ⟨m1, hgo, hconj1, hconj2⟩ :=
    expandToGo_spec loc loc.length m hae hrc (le_refl _)
      (fun j _ => nodeAt_take_isSome m.root tgt loc hv j)
  have hself : ccAt m1.root loc = ccAt m.root loc := by
    apply hconj2
    intro j h1 h2 heq
    have hlen : (loc.take j).length = j := by rw [List.length_take]; omega
    rw [← heq] at hlen
    omega
  have hroot : m1.root.data.collapsed = false := by
    have hfr : ccAt m1.root [] = ccAt m.root [] := by
      apply hconj2
      intro j h1 h2 heq
      have hlen : (loc.take j).length = j := by rw [List.length_take]; omega
      rw [← heq] at hlen
      simp at hlen
      omega
    rw [ccAt_nil, ccAt_nil] at hfr
    have hp := Option.some.inj hfr
    have hsnd : m1.root.data.collapsed = m.root.data.collapsed := congrArg Prod.snd hp
    rw [hsnd]
    exact hrc
  exact ⟨m1, by rw [hred]; exact hgo, hconj1, hconj2, hself, hroot⟩

theorem expandTo_expands_ancestors_witness :
    (wModel.autoExpandSingleChildren = false
      ∧ wModel.root.data.collapsed = false
      ∧ nodeAt wModel.root [0, 0] = some wChild2)
    ∧ ∃ m1, Model.expandTo wModel [0, 0] = .ok m1
      ∧ (∀ j a, 1 ≤ j → j < ([0, 0] : List Int).length →
          nodeAt m1.root (([0, 0] : List Int).take j) = some a →
          a.data.collapsible = true → a.data.collapsed = false)
      ∧ (∀ q, (∀ j, 1 ≤ j → j < ([0, 0] : List Int).length →
            q ≠ (([0, 0] : List Int)).take j) →
          ccAt m1.root q = ccAt wModel.root q)
      ∧ ccAt m1.root [0, 0] = ccAt wModel.root [0, 0]
      ∧ m1.root.data.collapsed = false :=
  ⟨⟨rfl, rfl, rfl⟩,
    expandTo_expands_ancestors wModel [0, 0] wChild2 rfl rfl rfl⟩

theorem treeNodeToElementList_eq_map {α : Type} (cs : List (TreeNode α)) :
    treeNodeToElementList cs = cs.map treeNodeToElement := by
  induction cs with
  | nil => rfl
  | cons c cs ih => rw [treeNodeToElementList, ih, List.map_cons]

theorem withData_data {α : Type} (c : TreeNode α) (d : NodeData α) :
    (c.withData d).data = d := by
  cases c
  rfl

theorem createTreeNodeList_length {α : Type} (f : TreeFilterFn α) (cbd : Bool)
    (els : List (TreeElement α)) (pd : Nat) (pv : Option TreeVisibility) (rev : Bool) :
    ∀ nid, (createTreeNodeList f cbd els pd pv rev nid).1.length = els.length := by
  induction els with
  | nil => intro nid; rfl
  | cons el els ih =>
    intro nid
    show ((createTreeNode f cbd el pd pv rev nid).1 ::
      (createTreeNodeList f cbd els pd pv rev
        (createTreeNode f cbd el pd pv rev nid).2.2).1).length = els.length + 1
    rw [List.length_cons, ih]

theorem assignVci_length {α : Type} (cs : List (TreeNode α)) :
    ∀ k, (assignVci cs k).1.length = cs.length := by
  induction cs with
  | nil => intro k; rfl
  | cons c cs ih =>
    intro k
    rw [assignVci]
    by_cases h : c.data.visible = true <;> simp [h, ih]

theorem assignVci_rncSum {α : Type} (cs : List (TreeNode α)) :
    ∀ k, rncSum (assignVci cs k).1 = rncSum cs := by
  induction cs with
  | nil => intro k; rfl
  | cons c cs ih =>
    intro k
    rw [assignVci]
    by_cases h : c.data.visible = true
    · simp only [h, if_true, rncSum, List.map_cons, List.sum_cons, withData_data]
      have h2 := ih (k + 1)
      simp only [rncSum] at h2
      rw [h2]
    · simp only [h, Bool.false_eq_true, if_false, rncSum, List.map_cons, List.sum_cons]
      have h2 := ih k
      simp only [rncSum] at h2
      rw [h2]

theorem assignVci_countVisible {α : Type} (cs : List (TreeNode α)) :
    ∀ k, countVisible (assignVci cs k).1 = countVisible cs := by
  induction cs with
  | nil => intro k; rfl
  | cons c cs ih =>
    intro k
    rw [assignVci]
    by_cases h : c.data.visible = true
    · simp only [h, if_true, countVisible, List.filter_cons, withData_visible]
      have h2 := ih (k + 1)
      simp only [countVisible] at h2
      simp only [h, if_true, List.length_cons]
      omega
    · simp only [h, Bool.false_eq_true, if_false, countVisible, List.filter_cons]
      have h2 := ih k
      simp only [countVisible] at h2
      exact h2

theorem treeNodeToElement_withData {α : Type} (x : TreeNode α) (d : NodeData α) :
    treeNodeToElement (x.withData d) =
      .mk d.element (treeNodeToElementList x.children) none (some d.collapsed) := by
  cases x
  rfl

theorem treeNodeToElement_eq {α : Type} (x : TreeNode α) :
    treeNodeToElement x =
      .mk x.data.element (treeNodeToElementList x.children) none (some x.data.collapsed) := by
  cases x
  rfl

theorem assignVci_toElement {α : Type} (cs : List (TreeNode α)) :
    ∀ k, treeNodeToElementList (assignVci cs k).1 = treeNodeToElementList cs := by
  induction cs with
  | nil => intro k; rfl
  | cons c cs ih =>
    intro k
    rw [assignVci]
    by_cases h : c.data.visible = true
    · simp only [h, if_true]
      rw [treeNodeToElementList, treeNodeToElementList]
      rw [treeNodeToElement_withData, treeNodeToElement_eq c, ih (k + 1)]
    · simp only [h, Bool.false_eq_true, if_false]
      rw [treeNodeToElementList, treeNodeToElementList, ih k]

theorem jsSplice_insert {β : Type} (l : List β) (st : Int) (items : List β)
    (hs0 : 0 ≤ st) (hsl : st ≤ (l.length : Int)) :
    jsSplice l st 0 items = (l.take st.toNat ++ items ++ l.drop st.toNat, []) := by
  simp only [jsSplice]
  rw [if_neg (by omega)]
  have h2 : min st (l.length : Int) = st := by omega
  rw [h2]
  have h3 : min (max (0 : Int) 0) ((l.length : Int) - st) = 0 := by omega
  rw [h3]
  simp

theorem jsSplice_delete_inserted {β : Type} (l : List β) (st : Int) (items : List β)
    (hs0 : 0 ≤ st) (hsl : st ≤ (l.length : Int)) :
    jsSplice (l.take st.toNat ++ items ++ l.drop st.toNat) st
      (items.length : Int) [] = (l, items) := by
  have htk : (l.take st.toNat).length = st.toNat := by
    rw [List.length_take]
    omega
  have hlen2 : ((l.take st.toNat ++ items ++ l.drop st.toNat).length : Int) =
      (l.length : Int) + items.length := by
    simp only [List.length_append, List.length_take, List.length_drop]
    omega
  simp only [jsSplice]
  rw [if_neg (by omega)]
  rw [hlen2]
  have h2 : min st ((l.length : Int) + items.length) = st := by omega
  rw [h2]
  have h3 : min (max ((items.length : Nat) : Int) 0)
      ((l.length : Int) + (items.length : Int) - st) = (items.length : Int) := by omega
  rw [h3]
  have hA : ((l.take st.toNat ++ items) ++ l.drop st.toNat).take st.toNat = l.take st.toNat := by
    rw [List.append_assoc]
    exact List.take_left' htk
  have hAlen : (l.take st.toNat ++ items).length = st.toNat + items.length := by
    rw [List.length_append, htk]
  have hD : ((l.take st.toNat ++ items) ++ l.drop st.toNat).drop
      (st.toNat + ((items.length : Nat) : Int).toNat) = l.drop st.toNat := by
    rw [Int.toNat_natCast]
    exact List.drop_left' hAlen
  have hDel : (((l.take st.toNat ++ items) ++ l.drop st.toNat).drop st.toNat).take
      ((items.length : Nat) : Int).toNat = items := by
    rw [Int.toNat_natCast, List.append_assoc, List.drop_left' htk]
    exact List.take_left' rfl
  rw [hA, hD, hDel]
  rw [List.append_nil, List.take_append_drop]

theorem createTreeNode_parts {α : Type} (f : TreeFilterFn α) (cbd : Bool) (e : α)
    (cs : List (TreeElement α)) (cb cc : Option Bool) (pd : Nat)
    (pv : Option TreeVisibility) (rev : Bool) (nid : Nat) :
    (createTreeNode f cbd (.mk e cs cb cc) pd pv rev nid).1.data.element = e
    ∧ (createTreeNode f cbd (.mk e cs cb cc) pd pv rev nid).1.data.collapsed =
        (match cc with | some b => b | none => cbd)
    ∧ ∃ rv2, (createTreeNode f cbd (.mk e cs cb cc) pd pv rev nid).1.children =
        (assignVci (createTreeNodeList f cbd cs (pd + 1) (some (f e pv)) rv2
          (nid + 1)).1 0).1 :=
  ⟨rfl, rfl,
    ⟨rev && (match f e pv with | .Hidden => false | _ => true)
      && !(match cc with | some b => b | none => cbd), rfl⟩⟩

mutual

theorem createTreeNode_toElement {α : Type} :
    ∀ (el : TreeElement α) (f : TreeFilterFn α) (cbd : Bool) (pd : Nat)
      (pv : Option TreeVisibility) (rev : Bool) (nid : Nat),
      treeNodeToElement (createTreeNode f cbd el pd pv rev nid).1 = elementSnapshot cbd el
  | .mk e cs cb cc, f, cbd, pd, pv, rev, nid => by
    obtain ⟨h1, h2, rv2, h3⟩ := createTreeNode_parts f cbd e cs cb cc pd pv rev nid
    rw [treeNodeToElement_eq, h1, h2, h3, assignVci_toElement]
    rw [createTreeNodeList_toElement cs f cbd (pd + 1) (some (f e pv)) rv2 (nid + 1)]
    rw [elementSnapshot.eq_def]

theorem createTreeNodeList_toElement {α : Type} :
    ∀ (els : List (TreeElement α)) (f : TreeFilterFn α) (cbd : Bool) (pd : Nat)
      (pv : Option TreeVisibility) (rev : Bool) (nid : Nat),
      treeNodeToElementList (createTreeNodeList f cbd els pd pv rev nid).1 =
        elementSnapshotList cbd els
  | [], f, cbd, pd, pv, rev, nid => by
    rw [createTreeNodeList, treeNodeToElementList, elementSnapshotList]
  | el :: els, f, cbd, pd, pv, rev, nid => by
    show treeNodeToElementList ((createTreeNode f cbd el pd pv rev nid).1 ::
      (createTreeNodeList f cbd els pd pv rev
        (createTreeNode f cbd el pd pv rev nid).2.2).1) =
      elementSnapshotList cbd (el :: els)
    rw [treeNodeToElementList, elementSnapshotList]
    rw [createTreeNode_toElement el f cbd pd pv rev nid]
    rw [createTreeNodeList_toElement els f cbd pd pv rev
      (createTreeNode f cbd el pd pv rev nid).2.2]

end

theorem createTreeNode_parts2 {α : Type} (f : TreeFilterFn α) (cbd : Bool) (e : α)
    (cs : List (TreeElement α)) (cb cc : Option Bool) (pd : Nat)
    (pv : Option TreeVisibility) (rev : Bool) (nid : Nat) :
    (createTreeNode f cbd (.mk e cs cb cc) pd pv rev nid).1.data.renderNodeCount =
      (if !(match f e pv with
          | .Recurse => decide (0 < (assignVci (createTreeNodeList f cbd cs (pd + 1)
              (some (f e pv))
              (rev && (match f e pv with | .Hidden => false | _ => true)
                && !(match cc with | some b => b | none => cbd)) (nid + 1)).1 0).2)
          | .Visible => true
          | .Hidden => false) then (0 : Int)
        else if !(match cc with | some b => b | none => cbd) then
          (1 : Int) + rncSum (assignVci (createTreeNodeList f cbd cs (pd + 1) (some (f e pv))
            (rev && (match f e pv with | .Hidden => false | _ => true)
              && !(match cc with | some b => b | none => cbd)) (nid + 1)).1 0).1
        else (1 : Int))
    ∧ (createTreeNode f cbd (.mk e cs cb cc) pd pv rev nid).1.data.visible =
      (match f e pv with
        | .Recurse => decide (0 < (assignVci (createTreeNodeList f cbd cs (pd + 1)
            (some (f e pv))
            (rev && (match f e pv with | .Hidden => false | _ => true)
              && !(match cc with | some b => b | none => cbd)) (nid + 1)).1 0).2)
        | .Visible => true
        | .Hidden => false)
    ∧ (createTreeNode f cbd (.mk e cs cb cc) pd pv rev nid).2.1 =
      (if !(match f e pv with
          | .Recurse => decide (0 < (assignVci (createTreeNodeList f cbd cs (pd + 1)
              (some (f e pv))
              (rev && (match f e pv with | .Hidden => false | _ => true)
                && !(match cc with | some b => b | none => cbd)) (nid + 1)).1 0).2)
          | .Visible => true
          | .Hidden => false) && rev then
        ((if rev then [e] else []) ++ (createTreeNodeList f cbd cs (pd + 1)
          (some (f e pv))
          (rev && (match f e pv with | .Hidden => false | _ => true)
            && !(match cc with | some b => b | none => cbd)) (nid + 1)).2.1).dropLast
      else
        (if rev then [e] else []) ++ (createTreeNodeList f cbd cs (pd + 1)
          (some (f e pv))
          (rev && (match f e pv with | .Hidden => false | _ => true)
            && !(match cc with | some b => b | none => cbd)) (nid + 1)).2.1) :=
  ⟨rfl, rfl, rfl⟩

theorem createTreeNodeList_mem {α : Type} (f : TreeFilterFn α) (cbd : Bool)
    (els : List (TreeElement α)) (pd : Nat) (pv : Option TreeVisibility) (rev : Bool) :
    ∀ nid n, n ∈ (createTreeNodeList f cbd els pd pv rev nid).1 →
      ∃ el2 nid2, el2 ∈ els ∧ n = (createTreeNode f cbd el2 pd pv rev nid2).1 := by
  induction els with
  | nil => intro nid n h; exact absurd h (List.not_mem_nil n)
  | cons el els ih =>
    intro nid n h
    have hshow : (createTreeNodeList f cbd (el :: els) pd pv rev nid).1 =
        (createTreeNode f cbd el pd pv rev nid).1 ::
          (createTreeNodeList f cbd els pd pv rev
            (createTreeNode f cbd el pd pv rev nid).2.2).1 := rfl
    rw [hshow] at h
    rcases List.mem_cons.mp h with h1 | h2
    · exact ⟨el, nid, List.mem_cons_self el els, h1⟩
    · obtain ⟨el2, nid2, hmem, heq⟩ :=
        ih (createTreeNode f cbd el pd pv rev nid).2.2 n h2
      exact ⟨el2, nid2, List.mem_cons_of_mem el hmem, heq⟩

theorem createTreeNode_rnc_of_invisible {α : Type} (f : TreeFilterFn α) (cbd : Bool)
    (el : TreeElement α) (pd : Nat) (pv : Option TreeVisibility) (rev : Bool) (nid : Nat)
    (hvis : (createTreeNode f cbd el pd pv rev nid).1.data.visible = false) :
    (createTreeNode f cbd el pd pv rev nid).1.data.renderNodeCount = 0 := by
  match el with
  | .mk e cs cb cc =>
    obtain ⟨h1, h2, _⟩ := createTreeNode_parts2 f cbd e cs cb cc pd pv rev nid
    rw [h2] at hvis
    rw [h1, hvis]
    rfl

theorem rncSum_eq_zero_of_all {α : Type} (cs : List (TreeNode α))
    (h : ∀ n ∈ cs, n.data.renderNodeCount = 0) : rncSum cs = 0 := by
  induction cs with
  | nil => rfl
  | cons c cs ih =>
    rw [rncSum, List.map_cons, List.sum_cons, h c (List.mem_cons_self c cs)]
    have := ih (fun n hn => h n (List.mem_cons_of_mem c hn))
    rw [rncSum] at this
    rw [this]
    rfl

theorem countVisible_zero_all_invisible {α : Type} (cs : List (TreeNode α))
    (h : countVisible cs = 0) : ∀ n ∈ cs, n.data.visible = false := by
  intro n hn
  rw [countVisible] at h
  have hlen : (cs.filter (fun c => c.data.visible)).length = 0 := by omega
  rw [List.length_eq_zero] at hlen
  cases hv : n.data.visible
  · rfl
  · exact absurd (List.mem_filter.mpr ⟨hn, hv⟩) (by rw [hlen]; exact List.not_mem_nil n)

theorem rncSum_cons {α : Type} (c : TreeNode α) (cs : List (TreeNode α)) :
    rncSum (c :: cs) = c.data.renderNodeCount + rncSum cs := by
  rw [rncSum, List.map_cons, List.sum_cons, rncSum]

mutual

theorem createTreeNode_fragLen {α : Type} :
    ∀ (el : TreeElement α) (f : TreeFilterFn α) (cbd : Bool) (pd : Nat)
      (pv : Option TreeVisibility) (rev : Bool) (nid : Nat),
      (((createTreeNode f cbd el pd pv rev nid).2.1.length : Nat) : Int) =
        (if rev then (createTreeNode f cbd el pd pv rev nid).1.data.renderNodeCount else 0)
  | .mk e cs cb cc, f, cbd, pd, pv, rev, nid => by
    have hcf : ∀ (pv2 : Option TreeVisibility) (rv : Bool),
        (((createTreeNodeList f cbd cs (pd + 1) pv2 rv (nid + 1)).2.1.length : Nat) : Int) =
          (if rv then rncSum (createTreeNodeList f cbd cs (pd + 1) pv2 rv (nid + 1)).1
            else 0) :=
      fun pv2 rv => createTreeNodeList_fragLen cs f cbd (pd + 1) pv2 rv (nid + 1)
    have hcfnil : ∀ (pv2 : Option TreeVisibility),
        (createTreeNodeList f cbd cs (pd + 1) pv2 false (nid + 1)).2.1 = [] := by
      intro pv2
      have h0 := hcf pv2 false
      simp only [Bool.false_eq_true, if_false, Int.natCast_eq_zero] at h0
      exact List.length_eq_zero.mp h0
    obtain ⟨hrnc, hvis, hfrag⟩ := createTreeNode_parts2 f cbd e cs cb cc pd pv rev nid
    rw [hfrag, hrnc]
    cases hV : f e pv with
    | Hidden =>
      simp only
      cases hrev : rev with
      | false =>
        simp only [Bool.and_false, Bool.false_and, Bool.false_eq_true, if_false,
          List.nil_append]
        rw [hcfnil]
        rfl
      | true =>
        simp only [Bool.and_false, Bool.false_and, Bool.true_and, Bool.not_false, if_true,
          Bool.and_true]
        rw [hcfnil]
        simp
    | Visible =>
      simp only
      cases hc0 : (match cc with | some b => b | none => cbd) with
      | true =>
        simp only [Bool.not_true, Bool.and_false, Bool.false_and, Bool.false_eq_true,
          if_false, Bool.and_true]
        cases hrev : rev with
        | false =>
          simp only [Bool.false_and, Bool.false_eq_true, if_false, List.nil_append]
          rw [hcfnil]
          rfl
        | true =>
          simp only [Bool.true_and, Bool.false_and, Bool.false_eq_true, if_false, if_true]
          rw [hcfnil]
          rfl
      | false =>
        simp only [Bool.not_false, Bool.and_true, Bool.true_and, Bool.false_and,
          Bool.false_eq_true, if_false, Bool.not_true]
        cases hrev : rev with
        | false =>
          simp only [Bool.false_eq_true, if_false, List.nil_append]
          rw [hcfnil]
          rfl
        | true =>
          simp only [if_true, List.singleton_append, List.length_cons]
          have h1 := hcf (some TreeVisibility.Visible) true
          simp only [if_true] at h1
          rw [assignVci_rncSum]
          push_cast
          rw [h1]
          ring
    | Recurse =>
      simp only
      cases hc0 : (match cc with | some b => b | none => cbd) with
      | true =>
        simp only [Bool.not_true, Bool.and_false, Bool.false_eq_true, if_false,
          Bool.and_true]
        rw [hcfnil]
        have hvcc : (assignVci (createTreeNodeList f cbd cs (pd + 1)
            (some TreeVisibility.Recurse) false (nid + 1)).1 0).2 =
              countVisible (createTreeNodeList f cbd cs (pd + 1)
                (some TreeVisibility.Recurse) false (nid + 1)).1 := by
          rw [assignVci_count]
          ring
        cases hcv : decide (0 < (assignVci (createTreeNodeList f cbd cs (pd + 1)
            (some TreeVisibility.Recurse) false (nid + 1)).1 0).2) with
        | true =>
          simp only [Bool.not_true, Bool.false_and, Bool.false_eq_true, if_false,
            List.append_nil]
          cases hrev : rev <;> simp
        | false =>
          simp only [Bool.not_false, Bool.true_and, List.append_nil]
          cases hrev : rev <;> simp
      | false =>
        simp only [Bool.not_false, Bool.and_true]
        cases hrev : rev with
        | false =>
          simp only [Bool.false_and, Bool.and_false, Bool.false_eq_true, if_false,
            List.nil_append]
          rw [hcfnil]
          rfl
        | true =>
          simp only [Bool.true_and, if_true, List.singleton_append]
          cases hcv : decide (0 < (assignVci (createTreeNodeList f cbd cs (pd + 1)
              (some TreeVisibility.Recurse) true (nid + 1)).1 0).2) with
          | true =>
            simp only [Bool.not_true, Bool.false_and, Bool.false_eq_true, if_false,
              List.length_cons]
            have h1 := hcf (some TreeVisibility.Recurse) true
            simp only [if_true] at h1
            rw [assignVci_rncSum]
            push_cast
            rw [h1]
            ring
          | false =>
            simp only [Bool.not_false, Bool.true_and, if_true]
            have hvz : countVisible (createTreeNodeList f cbd cs (pd + 1)
                (some TreeVisibility.Recurse) true (nid + 1)).1 = 0 := by
              have := of_decide_eq_false hcv
              rw [assignVci_count] at this
              have hnn : 0 ≤ countVisible (createTreeNodeList f cbd cs (pd + 1)
                  (some TreeVisibility.Recurse) true (nid + 1)).1 := by
                rw [countVisible]
                exact Int.natCast_nonneg _
              omega
            have hall := countVisible_zero_all_invisible _ hvz
            have hsum : rncSum (createTreeNodeList f cbd cs (pd + 1)
                (some TreeVisibility.Recurse) true (nid + 1)).1 = 0 := by
              apply rncSum_eq_zero_of_all
              intro n hn
              obtain ⟨el2, nid2, _, heq⟩ := createTreeNodeList_mem f cbd cs (pd + 1)
                (some TreeVisibility.Recurse) true (nid + 1) n hn
              rw [heq]
              exact createTreeNode_rnc_of_invisible f cbd el2 (pd + 1)
                (some TreeVisibility.Recurse) true nid2 (by rw [← heq]; exact hall n hn)
            have h1 := hcf (some TreeVisibility.Recurse) true
            simp only [if_true, hsum, Int.natCast_eq_zero] at h1
            rw [List.length_eq_zero.mp h1]
            simp

theorem createTreeNodeList_fragLen {α : Type} :
    ∀ (els : List (TreeElement α)) (f : TreeFilterFn α) (cbd : Bool) (pd : Nat)
      (pv : Option TreeVisibility) (rev : Bool) (nid : Nat),
      (((createTreeNodeList f cbd els pd pv rev nid).2.1.length : Nat) : Int) =
        (if rev then rncSum (createTreeNodeList f cbd els pd pv rev nid).1 else 0)
  | [], f, cbd, pd, pv, rev, nid => by
    cases rev <;> rfl
  | el :: els, f, cbd, pd, pv, rev, nid => by
    have h1 := createTreeNode_fragLen el f cbd pd pv rev nid
    have h2 := createTreeNodeList_fragLen els f cbd pd pv rev
      (createTreeNode f cbd el pd pv rev nid).2.2
    show ((((createTreeNode f cbd el pd pv rev nid).2.1 ++
      (createTreeNodeList f cbd els pd pv rev
        (createTreeNode f cbd el pd pv rev nid).2.2).2.1).length : Nat) : Int) =
      (if rev then rncSum ((createTreeNode f cbd el pd pv rev nid).1 ::
        (createTreeNodeList f cbd els pd pv rev
          (createTreeNode f cbd el pd pv rev nid).2.2).1) else 0)
    rw [List.length_append, rncSum_cons]
    push_cast
    rw [h1, h2]
    cases rev <;> simp

end

theorem take_set_eq {β : Type} : ∀ (l : List β) (n : Nat) (a : β),
    (l.set n a).take n = l.take n
  | [], n, a => by rfl
  | x :: xs, 0, a => by rfl
  | x :: xs, n + 1, a => by
    rw [List.set_cons_succ, List.take_succ_cons, List.take_succ_cons, take_set_eq xs n a]

theorem withChildren_addRnc_data {α : Type} (x : TreeNode α) (cs : List (TreeNode α))
    (d : Int) :
    ((x.withChildren cs).addRnc d).data.collapsed = x.data.collapsed
    ∧ ((x.withChildren cs).addRnc d).data.visible = x.data.visible
    ∧ ((x.withChildren cs).addRnc d).children = cs := by
  cases x
  exact ⟨rfl, rfl, rfl⟩

theorem resolver_last_bounds {α : Type} :
    ∀ (loc : List Int) (n : TreeNode α) (li : Int) (rev vis : Bool)
      (p : TreeNode α) (li2 : Int) (rev2 vis2 : Bool),
      getParentNodeWithListIndex loc n li rev vis = .ok (p, li2, rev2, vis2) →
      loc ≠ [] →
      0 ≤ loc.getLastD 0 ∧ loc.getLastD 0 ≤ (p.children.length : Int) := by
  intro loc
  induction loc with
  | nil => intro n li rev vis p li2 rev2 vis2 _ h; exact absurd rfl h
  | cons i rest ih =>
    intro n li rev vis p li2 rev2 vis2 hres _
    rw [getParentNodeWithListIndex] at hres
    by_cases hb : i < 0 ∨ (n.children.length : Int) < i
    · rw [if_pos hb] at hres; cases hres
    · rw [if_neg hb] at hres
      push_neg at hb
      cases hrest : rest with
      | nil =>
        rw [hrest] at hres
        simp only [List.isEmpty_nil, if_true] at hres
        have hp : n = p := congrArg Prod.fst (Except.ok.inj hres)
        subst hp
        exact ⟨hb.1, hb.2⟩
      | cons r rs =>
        have hrne : rest ≠ [] := by rw [hrest]; exact List.cons_ne_nil r rs
        rw [← hrest]
        simp only [List.isEmpty_iff, if_neg hrne] at hres
        cases hc : n.children[i.toNat]? with
        | none => rw [hc] at hres; cases hres
        | some child =>
          rw [hc] at hres
          rw [getLastD_cons_ne i 0 rest hrne]
          exact ih child _ _ _ p li2 rev2 vis2 hres hrne

theorem resolver_stable {α : Type} :
    ∀ (loc : List Int) (root : TreeNode α) (li : Int) (rev vis : Bool)
      (p : TreeNode α) (li2 : Int) (rev2 vis2 : Bool) (X : TreeNode α) (d : Int),
      getParentNodeWithListIndex loc root li rev vis = .ok (p, li2, rev2, vis2) →
      X.data.collapsed = p.data.collapsed →
      X.data.visible = p.data.visible →
      X.children.take (loc.getLastD 0).toNat = p.children.take (loc.getLastD 0).toNat →
      (loc.getLastD 0) ≤ (X.children.length : Int) →
      getParentNodeWithListIndex loc
        (updateTreeAt root loc.dropLast (fun _ => (X, d))).1 li rev vis =
        .ok (X, li2, rev2, vis2) := by
  intro loc
  induction loc with
  | nil =>
    intro root li rev vis p li2 rev2 vis2 X d hres
    cases hres
    intro hcb hvb _ _
    show (Except.ok (X, li, rev && !X.data.collapsed, vis && X.data.visible) :
        Except String (TreeNode α × Int × Bool × Bool)) = _
    rw [hcb, hvb]
  | cons i rest ih =>
    intro root li rev vis p li2 rev2 vis2 X d hres hcb hvb htake hlen
    rw [getParentNodeWithListIndex] at hres
    by_cases hb : i < 0 ∨ (root.children.length : Int) < i
    · rw [if_pos hb] at hres; cases hres
    · rw [if_neg hb] at hres
      push_neg at hb
      cases hrest : rest with
      | nil =>
        rw [hrest] at hres
        simp only [List.isEmpty_nil, if_true] at hres
        have hp : root = p := congrArg Prod.fst (Except.ok.inj hres)
        subst hp
        have hli2 : li + rncSum (root.children.take i.toNat) = li2 := by
          have := congrArg (fun z => z.2.1) (Except.ok.inj hres)
          simpa using this
        have hrev2 : (rev && !root.data.collapsed) = rev2 := by
          have := congrArg (fun z => z.2.2.1) (Except.ok.inj hres)
          simpa using this
        have hvis2 : (vis && root.data.visible) = vis2 := by
          have := congrArg (fun z => z.2.2.2) (Except.ok.inj hres)
          simpa using this
        subst hrest
        show getParentNodeWithListIndex [i] X li rev vis = .ok (X, li2, rev2, vis2)
        rw [getParentNodeWithListIndex]
        have hgl : ([i] : List Int).getLastD 0 = i := rfl
        rw [hgl] at htake hlen
        rw [if_neg (by push_neg; exact ⟨hb.1, hlen⟩)]
        simp only [List.isEmpty_nil, if_true]
        have hsum : rncSum (X.children.take i.toNat) =
            rncSum (root.children.take i.toNat) := by rw [htake]
        rw [hsum, hli2, hcb, hvb, hrev2, hvis2]
      | cons r rs =>
        have hrne : rest ≠ [] := by rw [hrest]; exact List.cons_ne_nil r rs
        rw [← hrest]
        simp only [List.isEmpty_iff, if_neg hrne] at hres
        cases hc : root.children[i.toNat]? with
        | none => rw [hc] at hres; cases hres
        | some child =>
          rw [hc] at hres
          have hlt : i.toNat < root.children.length := getElem?_some_lt _ _ _ hc
          have hdl : (i :: rest).dropLast = i :: rest.dropLast := by
            rw [hrest]; rfl
          rw [hdl, updateTreeAt, hc]
          rw [getLastD_cons_ne i 0 rest hrne] at htake hlen
          have hstep := ih child (li + rncSum (root.children.take i.toNat) + 1)
            (rev && !root.data.collapsed) (vis && root.data.visible)
            p li2 rev2 vis2 X d hres hcb hvb htake hlen
          obtain ⟨hd1, hd2, hd3⟩ := withChildren_addRnc_data root
            (root.children.set i.toNat
              (updateTreeAt child rest.dropLast (fun _ => (X, d))).1)
            (updateTreeAt child rest.dropLast (fun _ => (X, d))).2
          rw [getParentNodeWithListIndex]
          simp only [hd3]
          rw [if_neg (by push_neg; rw [List.length_set]; exact ⟨hb.1, hb.2⟩)]
          simp only [List.isEmpty_iff, if_neg hrne]
          rw [take_set_eq, List.getElem?_set_eq hlt]
          have hsum2 : rncSum ((root.children.set i.toNat
              (updateTreeAt child rest.dropLast (fun _ => (X, d))).1).take i.toNat) =
              rncSum (root.children.take i.toNat) := by rw [take_set_eq]
          rw [hd1, hd2]
          exact hstep

theorem splice_shape {α : Type} (m : Model α) (loc : List Int) (dc : Int)
    (ins : List (TreeElement α)) (p : TreeNode α) (li : Int) (rev vis : Bool)
    (hl : loc ≠ [])
    (hres : getParentNodeWithListIndex loc m.root 0 true true = .ok (p, li, rev, vis)) :
    Model.splice m loc dc ins = .ok (spliceAfter m loc dc ins p li rev vis) := by
  rw [Model.splice, if_neg (by simp [hl]), hres]
  rfl

theorem spliceX_insert_children {α : Type} (m : Model α) (loc : List Int)
    (ins : List (TreeElement α)) (p : TreeNode α) (rev vis : Bool)
    (hb0 : 0 ≤ loc.getLastD 0) (hbl : loc.getLastD 0 ≤ (p.children.length : Int)) :
    (spliceX m loc 0 ins p rev vis).children =
      p.children.take (loc.getLastD 0).toNat ++ (assignVci (createTreeNodeList m.filter m.collapseByDefault ins p.data.depth (some (if p.data.visible then TreeVisibility.Visible else TreeVisibility.Hidden)) rev m.nextId).1 (visibleStartScan p.children (loc.getLastD 0))).1 ++
        p.children.drop (loc.getLastD 0).toNat := by
  have hJS := jsSplice_insert p.children (loc.getLastD 0) (assignVci (createTreeNodeList m.filter m.collapseByDefault ins p.data.depth (some (if p.data.visible then TreeVisibility.Visible else TreeVisibility.Hidden)) rev m.nextId).1 (visibleStartScan p.children (loc.getLastD 0))).1 hb0 hbl
  simp only [spliceX, hJS]
  by_cases hrv : (rev && vis) = true
  · simp only [hrv, if_true]
    cases p
    rfl
  · simp only [hrv, if_false]
    cases p
    rfl

theorem spliceX_insert_flags {α : Type} (m : Model α) (loc : List Int)
    (ins : List (TreeElement α)) (p : TreeNode α) (rev vis : Bool) :
    (spliceX m loc 0 ins p rev vis).data.collapsed = p.data.collapsed
    ∧ (spliceX m loc 0 ins p rev vis).data.visible = p.data.visible := by
  simp only [spliceX]
  by_cases hrv : (rev && vis) = true
  · simp only [hrv, if_true]
    cases p
    exact ⟨rfl, rfl⟩
  · simp only [hrv, if_false]
    cases p
    exact ⟨rfl, rfl⟩

theorem spliceAfter_insert_deleted {α : Type} (m : Model α) (loc : List Int)
    (ins : List (TreeElement α)) (p : TreeNode α) (li : Int) (rev vis : Bool)
    (hb0 : 0 ≤ loc.getLastD 0) (hbl : loc.getLastD 0 ≤ (p.children.length : Int)) :
    (spliceAfter m loc 0 ins p li rev vis).2 = [] := by
  have hJS := jsSplice_insert p.children (loc.getLastD 0) (assignVci (createTreeNodeList m.filter m.collapseByDefault ins p.data.depth (some (if p.data.visible then TreeVisibility.Visible else TreeVisibility.Hidden)) rev m.nextId).1 (visibleStartScan p.children (loc.getLastD 0))).1 hb0 hbl
  simp only [spliceAfter, hJS]
  rfl

theorem spliceAfter_insert_list {α : Type} (m : Model α) (loc : List Int)
    (ins : List (TreeElement α)) (p : TreeNode α) (li : Int) (rev vis : Bool)
    (hb0 : 0 ≤ loc.getLastD 0) (hbl : loc.getLastD 0 ≤ (p.children.length : Int))
    (hliB : (rev && vis) = true → 0 ≤ li ∧ li ≤ (m.list.length : Int)) :
    (spliceAfter m loc 0 ins p li rev vis).1.list =
      (if (rev && vis) = true then
        m.list.take li.toNat ++ (createTreeNodeList m.filter m.collapseByDefault ins p.data.depth (some (if p.data.visible then TreeVisibility.Visible else TreeVisibility.Hidden)) rev m.nextId).2.1 ++ m.list.drop li.toNat
      else m.list) := by
  have hJS := jsSplice_insert p.children (loc.getLastD 0) (assignVci (createTreeNodeList m.filter m.collapseByDefault ins p.data.depth (some (if p.data.visible then TreeVisibility.Visible else TreeVisibility.Hidden)) rev m.nextId).1 (visibleStartScan p.children (loc.getLastD 0))).1 hb0 hbl
  have hrs : rncSum ([] : List (TreeNode α)) = 0 := rfl
  by_cases hrv : (rev && vis) = true
  · obtain ⟨hl0, hll⟩ := hliB hrv
    have hLS := jsSplice_insert m.list li (createTreeNodeList m.filter m.collapseByDefault ins p.data.depth (some (if p.data.visible then TreeVisibility.Visible else TreeVisibility.Hidden)) rev m.nextId).2.1 hl0 hll
    simp only [spliceAfter, hJS, hrv, if_true, hrs, hLS]
  · simp only [spliceAfter, hJS, hrv, if_false]
    rfl

theorem spliceAfter_delete_facts {α : Type} (m2 : Model α) (loc : List Int) (N : Int)
    (X : TreeNode α) (li : Int) (rev vis : Bool) (l0 insN : List (TreeNode α))
    (hch : X.children = l0.take (loc.getLastD 0).toNat ++ insN ++
      l0.drop (loc.getLastD 0).toNat)
    (hN : N = (insN.length : Int))
    (hb0 : 0 ≤ loc.getLastD 0) (hbl : loc.getLastD 0 ≤ (l0.length : Int)) :
    (spliceAfter m2 loc N [] X li rev vis).2 = insN.map treeNodeToElement
    ∧ (spliceAfter m2 loc N [] X li rev vis).1.list =
        (if (rev && vis) = true then (jsSplice m2.list li (rncSum insN) []).1
          else m2.list) := by
  have hitems : ∀ vs : Int, (assignVci (createTreeNodeList m2.filter m2.collapseByDefault
      ([] : List (TreeElement α)) X.data.depth
      (some (if X.data.visible then TreeVisibility.Visible else TreeVisibility.Hidden))
      rev m2.nextId).1 vs).1 = [] := fun vs => rfl
  have hfrag : (createTreeNodeList m2.filter m2.collapseByDefault
      ([] : List (TreeElement α)) X.data.depth
      (some (if X.data.visible then TreeVisibility.Visible else TreeVisibility.Hidden))
      rev m2.nextId).2.1 = [] := rfl
  have hJS2 : jsSplice (l0.take (loc.getLastD 0).toNat ++ insN ++
      l0.drop (loc.getLastD 0).toNat) (loc.getLastD 0) N [] = (l0, insN) := by
    rw [hN]
    exact jsSplice_delete_inserted l0 (loc.getLastD 0) insN hb0 hbl
  constructor
  · simp only [spliceAfter, hitems, hch, hJS2]
  · simp only [spliceAfter, hitems, hfrag, hch, hJS2]

/-- C3 amended: at a resolvable non-empty location whose flat offset is
within the projection bounds whenever the slot is revealed and visible (the
premise the stale-render-count counterexample violates), inserting N
elements and then deleting N elements at the same location returns, as the
deleted elements, the collapse-state snapshots of the inserted elements in
order, and restores the render projection exactly. -/
theorem splice_roundTrip {α : Type} (m : Model α) (loc : List Int)
    (ins : List (TreeElement α)) (p : TreeNode α) (li : Int) (rev vis : Bool)
    (hl : loc ≠ [])
    (hres : getParentNodeWithListIndex loc m.root 0 true true = .ok (p, li, rev, vis))
    (hliB : (rev && vis) = true → 0 ≤ li ∧ li ≤ (m.list.length : Int)) :
    ∃ m1 m2,
      Model.splice m loc 0 ins = .ok (m1, [])
      ∧ Model.splice m1 loc (ins.length : Int) [] =
          .ok (m2, elementSnapshotList m.collapseByDefault ins)
      ∧ m2.list = m.list := by
  obtain ⟨hb0, hbl⟩ := resolver_last_bounds loc m.root 0 true true p li rev vis hres hl
  have h1 := splice_shape m loc 0 ins p li rev vis hl hres
  have hdel1 := spliceAfter_insert_deleted m loc ins p li rev vis hb0 hbl
  have hlist1 := spliceAfter_insert_list m loc ins p li rev vis hb0 hbl hliB
  have hroot1 : (spliceAfter m loc 0 ins p li rev vis).1.root = (updateTreeAt m.root loc.dropLast
      (fun _ => (spliceX m loc 0 ins p rev vis, spliceD m loc 0 ins p rev vis))).1 := rfl
  have hXch := spliceX_insert_children m loc ins p rev vis hb0 hbl
  obtain ⟨hXcb, hXvb⟩ := spliceX_insert_flags m loc ins p rev vis
  have htklen : (p.children.take (loc.getLastD 0).toNat).length = (loc.getLastD 0).toNat := by
    rw [List.length_take]
    omega
  have hXtake : (spliceX m loc 0 ins p rev vis).children.take (loc.getLastD 0).toNat =
      p.children.take (loc.getLastD 0).toNat := by
    rw [hXch, List.append_assoc]
    exact List.take_left' htklen
  have hXlen : loc.getLastD 0 ≤ (((spliceX m loc 0 ins p rev vis).children.length : Nat) : Int) := by
    rw [hXch]
    simp only [List.length_append, List.length_take, List.length_drop]
    push_cast
    omega
  have hres2 : getParentNodeWithListIndex loc (spliceAfter m loc 0 ins p li rev vis).1.root 0 true true =
      .ok ((spliceX m loc 0 ins p rev vis), li, rev, vis) := by
    rw [hroot1]
    exact resolver_stable loc m.root 0 true true p li rev vis _ _ hres hXcb hXvb hXtake hXlen
  have h2 := splice_shape (spliceAfter m loc 0 ins p li rev vis).1 loc (ins.length : Int) [] (spliceX m loc 0 ins p rev vis) li rev vis hl hres2
  have hN : ((ins.length : Nat) : Int) = (((assignVci (createTreeNodeList m.filter m.collapseByDefault ins p.data.depth (some (if p.data.visible then TreeVisibility.Visible else TreeVisibility.Hidden)) rev m.nextId).1 (visibleStartScan p.children (loc.getLastD 0))).1.length : Nat) : Int) := by
    rw [assignVci_length, createTreeNodeList_length]
  obtain ⟨hdel2, hlist2⟩ := spliceAfter_delete_facts (spliceAfter m loc 0 ins p li rev vis).1 loc (ins.length : Int)
    (spliceX m loc 0 ins p rev vis) li rev vis p.children (assignVci (createTreeNodeList m.filter m.collapseByDefault ins p.data.depth (some (if p.data.visible then TreeVisibility.Visible else TreeVisibility.Hidden)) rev m.nextId).1 (visibleStartScan p.children (loc.getLastD 0))).1 hXch hN hb0 hbl
  have hsnap : (assignVci (createTreeNodeList m.filter m.collapseByDefault ins p.data.depth (some (if p.data.visible then TreeVisibility.Visible else TreeVisibility.Hidden)) rev m.nextId).1 (visibleStartScan p.children (loc.getLastD 0))).1.map treeNodeToElement = elementSnapshotList m.collapseByDefault ins := by
    rw [← treeNodeToElementList_eq_map, assignVci_toElement]
    exact createTreeNodeList_toElement ins m.filter m.collapseByDefault p.data.depth
      (some (if p.data.visible then TreeVisibility.Visible else TreeVisibility.Hidden))
      rev m.nextId
  have hlfin : (spliceAfter (spliceAfter m loc 0 ins p li rev vis).1 loc (ins.length : Int) [] (spliceX m loc 0 ins p rev vis) li rev vis).1.list =
      m.list := by
    rw [hlist2]
    by_cases hrv : (rev && vis) = true
    · rw [if_pos hrv]
      obtain ⟨hl0, hll⟩ := hliB hrv
      have hm1list : (spliceAfter m loc 0 ins p li rev vis).1.list =
          m.list.take li.toNat ++ (createTreeNodeList m.filter m.collapseByDefault ins p.data.depth (some (if p.data.visible then TreeVisibility.Visible else TreeVisibility.Hidden)) rev m.nextId).2.1 ++ m.list.drop li.toNat := by
        rw [hlist1, if_pos hrv]
      have hsum : rncSum (assignVci (createTreeNodeList m.filter m.collapseByDefault ins p.data.depth (some (if p.data.visible then TreeVisibility.Visible else TreeVisibility.Hidden)) rev m.nextId).1 (visibleStartScan p.children (loc.getLastD 0))).1 = (((createTreeNodeList m.filter m.collapseByDefault ins p.data.depth (some (if p.data.visible then TreeVisibility.Visible else TreeVisibility.Hidden)) rev m.nextId).2.1.length : Nat) : Int) := by
        rw [assignVci_rncSum]
        have hfl := createTreeNodeList_fragLen ins m.filter m.collapseByDefault p.data.depth
          (some (if p.data.visible then TreeVisibility.Visible else TreeVisibility.Hidden))
          rev m.nextId
        have hrevT : rev = true := by
          cases hc : rev
          · rw [hc, Bool.false_and] at hrv
            exact absurd hrv Bool.false_ne_true
          · rfl
        rw [hrevT] at hfl ⊢
        simp only [if_true] at hfl
        exact hfl.symm
      rw [hm1list, hsum, jsSplice_delete_inserted m.list li (createTreeNodeList m.filter m.collapseByDefault ins p.data.depth (some (if p.data.visible then TreeVisibility.Visible else TreeVisibility.Hidden)) rev m.nextId).2.1 hl0 hll]
    · rw [if_neg hrv, hlist1, if_neg hrv]
  refine ⟨(spliceAfter m loc 0 ins p li rev vis).1, (spliceAfter (spliceAfter m loc 0 ins p li rev vis).1 loc (ins.length : Int) [] (spliceX m loc 0 ins p rev vis) li rev vis).1, ?_, ?_, hlfin⟩
  · rw [h1, ← hdel1]
  · rw [h2, ← hsnap, ← hdel2]

theorem splice_roundTrip_witness :
    (([0] : List Int) ≠ []
      ∧ getParentNodeWithListIndex [0] wModel.root 0 true true =
          .ok (wModel.root, 0, true, true))
    ∧ ∃ m1 m2,
      Model.splice wModel [0] 0 [leafEl 9] = .ok (m1, [])
      ∧ Model.splice m1 [0] (([leafEl 9].length : Nat) : Int) [] =
          .ok (m2, elementSnapshotList wModel.collapseByDefault [leafEl 9])
      ∧ m2.list = wModel.list :=
  ⟨⟨by decide, rfl⟩,
    splice_roundTrip wModel [0] [leafEl 9] wModel.root 0 true true (by decide) rfl
      (fun _ => by decide)⟩
